import Mathlib

/-!
Verification of the concurrent batch-job processing engine
(`examples/batch-processing/main.go` of the xollm repository).

The Go program is embedded as a small-step state machine: every atomic
action of the dispatcher goroutine, the worker goroutines, the
wait-group closer and the result collector is one `Action`, and a run
of `ProcessJobs` is the execution of an arbitrary list of actions
(a schedule) from the initial state.  Quantifying over all schedules
covers every interleaving of the goroutines.  Both channels in the Go
code are buffered with capacity `len(jobs)`, and at most `len(jobs)`
values are ever sent on each, so channel sends never block and the
non-blocking channel model used here is faithful.
-/

set_option autoImplicit false

namespace Batch

/-- `BatchJob` (main.go lines 20-24): one unit of work.  The
`Metadata` map carries no meaning for the engine and modelled as an association
list. -/
structure BatchJob where
  id : String
  prompt : String
  metadata : List (String × String)
deriving DecidableEq, Repr, Inhabited

/-- `BatchResult` (main.go lines 27-33).  `time.Duration` values are
elapsed wall-clock times, hence non-negative, and are modelled as
`Nat`.  A Go `error` is modelled as `Option String` (`none` = nil). -/
structure BatchResult where
  job : BatchJob
  response : String
  duration : Nat
  error : Option String
  worker : Nat
deriving DecidableEq, Repr, Inhabited

/-- `BatchStatistics` (main.go lines 36-45).  `time.Time` values are
abstract instants modelled as `Nat`. -/
structure BatchStatistics where
  totalJobs : Nat
  completedJobs : Nat
  failedJobs : Nat
  totalDuration : Nat
  averageDuration : Nat
  workerCount : Nat
  startTime : Nat
  endTime : Nat
deriving DecidableEq, Repr, Inhabited

/-- `BatchProcessor` (main.go lines 48-53).  The `config` field is
never inspected by the engine (it is only passed through to the client factory)
and is omitted; the mutex is a synchronization device with no
sequential content. -/
structure BatchProcessor where
  workerCount : Nat
  stats : BatchStatistics
deriving DecidableEq, Repr, Inhabited

/-- `NewBatchProcessor` (main.go lines 56-68): a non-positive
`workerCount` argument is replaced by 1. -/
def NewBatchProcessor (workerCount : Int) : BatchProcessor :=
  let wc : Int := if workerCount ≤ 0 then 1 else workerCount
  { workerCount := wc.toNat
    stats := { totalJobs := 0, completedJobs := 0, failedJobs := 0,
               totalDuration := 0, averageDuration := 0,
               workerCount := wc.toNat, startTime := 0, endTime := 0 } }

/-- `GetWorkerCount` (main.go lines 71-75). -/
def GetWorkerCount (bp : BatchProcessor) : Nat :=
  bp.workerCount

/-- `GetStatistics` (main.go lines 92-96): snapshot copy of the
statistics. -/
def GetStatistics (bp : BatchProcessor) : BatchStatistics :=
  bp.stats

/-- `Close` (main.go lines 220-223): returns nil and changes nothing. -/
def CloseProcessor (bp : BatchProcessor) : Option String × BatchProcessor :=
  (none, bp)

/-- The run environment: everything outside the engine that a run can
observe.  `gen` is the external Generator: given the current
cancellation state of the run context and a prompt it returns
`(response, error, duration)`.  `clientErr w` is the outcome of
`xollm.GetClient` in worker `w` (1-based): `some e` means the factory
fails with message `e`.  `startTime`/`endTime` are the values of the
abstract clock at the two `time.Now()` call sites. -/
structure Env where
  jobs : List BatchJob
  gen : Bool → String → String × Option String × Nat
  clientErr : Nat → Option String
  startTime : Nat
  endTime : Nat

/-- The phase of one worker goroutine (main.go lines 169-217):
`init` = before the `xollm.GetClient` call, `run` = in the job loop
with a working client, `emit r` = holding result `r` between the
`Generate` call and the send on the result channel, `drain` = client
creation failed, draining the job channel, `done` = returned. -/
inductive WorkerPhase where
  | init : WorkerPhase
  | run : WorkerPhase
  | emit : BatchResult → WorkerPhase
  | drain : WorkerPhase
  | done : WorkerPhase
deriving DecidableEq, Repr, Inhabited

/-- The state of one run of `ProcessJobs`: the dispatcher position
(`pending`), the two channels (contents plus closed flag), the worker
phases, the collected results and statistics, and whether the run
context has been cancelled. -/
structure RunState where
  pending : List BatchJob
  intake : List BatchJob
  intakeClosed : Bool
  workers : List WorkerPhase
  output : List BatchResult
  outputClosed : Bool
  collected : List BatchResult
  stats : BatchStatistics
  cancelled : Bool
  finalized : Bool
deriving DecidableEq, Repr, Inhabited

/-- One atomic action of one of the goroutines of a run.  Worker
actions carry the 0-based index of the worker. -/
inductive Action where
  | cancel : Action
  | dispatch : Action
  | closeIntake : Action
  | workerStart : Nat → Action
  | drainTake : Nat → Action
  | drainExit : Nat → Action
  | take : Nat → Action
  | send : Nat → Action
  | emitAbort : Nat → Action
  | exitClosed : Nat → Action
  | abort : Nat → Action
  | closeOutput : Action
  | collect : Action
  | finalize : Action
deriving DecidableEq, Repr

/-- The statistics fold of the collector (main.go lines 147-154):
one counter is incremented according to the presence of the error, and
the duration is accumulated. -/
def foldResult (st : BatchStatistics) (r : BatchResult) : BatchStatistics :=
  { st with
    completedJobs := if r.error = none then st.completedJobs + 1 else st.completedJobs
    failedJobs := if r.error = none then st.failedJobs else st.failedJobs + 1
    totalDuration := st.totalDuration + r.duration }

/-- The error message substituted by a worker whose client creation
failed (main.go line 179). -/
def clientErrMsg (e : String) : String :=
  "failed to create LLM client: " ++ e

/-- The substitute result emitted by a worker whose client creation
failed (main.go lines 176-182): zero-value response and duration, the
wrapped construction error, and the 1-based worker id. -/
def drainResult (j : BatchJob) (w : Nat) (e : String) : BatchResult :=
  { job := j, response := "", duration := 0,
    error := some (clientErrMsg e), worker := w + 1 }

/-- The result built from one `Generate` call (main.go lines 195-205):
the generator is invoked on the prompt of the job under the current
cancellation state of the run context. -/
def genResult (env : Env) (cancelled : Bool) (j : BatchJob) (w : Nat) : BatchResult :=
  let g := env.gen cancelled j.prompt
  { job := j, response := g.1, duration := g.2.2, error := g.2.1, worker := w + 1 }

/-- The initial state of a run over a non-empty job list
(main.go lines 104-122). -/
def initState (bp : BatchProcessor) (env : Env) : RunState :=
  { pending := env.jobs
    intake := []
    intakeClosed := false
    workers := List.replicate bp.workerCount WorkerPhase.init
    output := []
    outputClosed := false
    collected := []
    stats := { totalJobs := env.jobs.length, completedJobs := 0,
               failedJobs := 0, totalDuration := 0, averageDuration := 0,
               workerCount := bp.workerCount, startTime := env.startTime,
               endTime := 0 }
    cancelled := false
    finalized := false }

/-- One step of the run.  Guards reflect the Go select semantics: a
branch on a ready channel operation may always be taken, the
`ctx.Done()` branch only once the context is cancelled.  Returns
`none` when the action is not enabled. -/
def step (env : Env) (a : Action) (s : RunState) : Option RunState :=
  if s.finalized then none else
  match a with
  | Action.cancel =>
      some { s with cancelled := true }
  | Action.dispatch =>
      match s.pending, s.intakeClosed with
      | j :: rest, false =>
          some { s with pending := rest, intake := s.intake ++ [j] }
      | _, _ => none
  | Action.closeIntake =>
      if s.intakeClosed then none
      else if s.pending = [] ∨ s.cancelled then
        some { s with intakeClosed := true }
      else none
  | Action.workerStart w =>
      match s.workers[w]? with
      | some WorkerPhase.init =>
          match env.clientErr (w + 1) with
          | some _ => some { s with workers := s.workers.set w WorkerPhase.drain }
          | none => some { s with workers := s.workers.set w WorkerPhase.run }
      | _ => none
  | Action.drainTake w =>
      match s.workers[w]?, s.intake, env.clientErr (w + 1) with
      | some WorkerPhase.drain, j :: rest, some e =>
          some { s with intake := rest,
                        output := s.output ++ [drainResult j w e] }
      | _, _, _ => none
  | Action.drainExit w =>
      match s.workers[w]?, s.intake, s.intakeClosed with
      | some WorkerPhase.drain, [], true =>
          some { s with workers := s.workers.set w WorkerPhase.done }
      | _, _, _ => none
  | Action.take w =>
      match s.workers[w]?, s.intake with
      | some WorkerPhase.run, j :: rest =>
          some { s with intake := rest,
                        workers := s.workers.set w
                          (WorkerPhase.emit (genResult env s.cancelled j w)) }
      | _, _ => none
  | Action.send w =>
      match s.workers[w]? with
      | some (WorkerPhase.emit r) =>
          some { s with workers := s.workers.set w WorkerPhase.run,
                        output := s.output ++ [r] }
      | _ => none
  | Action.emitAbort w =>
      match s.workers[w]?, s.cancelled with
      | some (WorkerPhase.emit _), true =>
          some { s with workers := s.workers.set w WorkerPhase.done }
      | _, _ => none
  | Action.exitClosed w =>
      match s.workers[w]?, s.intake, s.intakeClosed with
      | some WorkerPhase.run, [], true =>
          some { s with workers := s.workers.set w WorkerPhase.done }
      | _, _, _ => none
  | Action.abort w =>
      match s.workers[w]?, s.cancelled with
      | some WorkerPhase.run, true =>
          some { s with workers := s.workers.set w WorkerPhase.done }
      | _, _ => none
  | Action.closeOutput =>
      if s.outputClosed then none
      else if ∀ ph ∈ s.workers, ph = WorkerPhase.done then
        some { s with outputClosed := true }
      else none
  | Action.collect =>
      match s.output with
      | r :: rest =>
          some { s with output := rest, collected := s.collected ++ [r],
                        stats := foldResult s.stats r }
      | [] => none
  | Action.finalize =>
      if s.outputClosed ∧ s.output = [] then
        some { s with finalized := true,
                      stats := { s.stats with
                        endTime := env.endTime,
                        averageDuration :=
                          if s.stats.totalJobs > 0 then
                            s.stats.totalDuration / s.stats.totalJobs
                          else s.stats.averageDuration } }
      else none

/-- Execution of a schedule: each action in turn must be enabled. -/
def run (env : Env) : List Action → RunState → Option RunState
  | [], s => some s
  | a :: acts, s =>
      match step env a s with
      | some s' => run env acts s'
      | none => none

/-- The run-level error returned by `ProcessJobs` (main.go line 165):
`ctx.Err()`, which is non-nil exactly when the context has been
cancelled. -/
def runError (s : RunState) : Option String :=
  if s.cancelled then some "context canceled" else none

/-- `ProcessJobs` (main.go lines 99-166), parameterized by the
schedule: an empty job list returns immediately (lines 100-102)
without touching the statistics; otherwise the state machine runs to
its final state and the collected results, `ctx.Err()` and the updated
processor are returned. -/
def ProcessJobs (bp : BatchProcessor) (env : Env) (acts : List Action) :
    Option ((List BatchResult × Option String) × BatchProcessor) :=
  if env.jobs = [] then some (([], none), bp)
  else
    match run env acts (initState bp env) with
    | some s =>
        if s.finalized then
          some ((s.collected, runError s), { bp with stats := s.stats })
        else none
    | none => none

/-- `createJobsFromPrompts` (main.go lines 226-236), with the running
1-based index made explicit. -/
def createJobsFromPromptsAux (i : Nat) : List String → List BatchJob
  | [] => []
  | p :: rest =>
      { id := "job-" ++ toString (i + 1), prompt := p, metadata := [] } ::
        createJobsFromPromptsAux (i + 1) rest

/-- `createJobsFromPrompts` (main.go lines 226-236). -/
def createJobsFromPrompts (prompts : List String) : List BatchJob :=
  createJobsFromPromptsAux 0 prompts

/-- Model of strings.TrimSpace: strip leading and trailing whitespace
characters. -/
def trimSpace (s : String) : String :=
  String.mk
    (((s.data.dropWhile Char.isWhitespace).reverse.dropWhile
      Char.isWhitespace).reverse)

/-- Model of strings.HasPrefix: the second string is a prefix of the
first. -/
def startsWithStr (s p : String) : Bool :=
  p.data.isPrefixOf s.data

/-- Outcome of reading the prompt file (main.go lines 240-259):
either `os.Open` fails, or the scanner delivers a list of lines and
`scanner.Err()` afterwards reports `none` (clean end of input) or
`some e` (read error after the delivered lines). -/
inductive ReadOutcome where
  | openFailed : String → ReadOutcome
  | scanned : List String → Option String → ReadOutcome

/-- `createJobsFromFile` (main.go lines 239-262): lines are trimmed,
blank lines and comment lines are skipped, a read error discards all
accumulated prompts, and the survivors are numbered by
`createJobsFromPrompts`. -/
def createJobsFromFile : ReadOutcome → Except String (List BatchJob)
  | ReadOutcome.openFailed e => Except.error ("failed to open file: " ++ e)
  | ReadOutcome.scanned lines scanErr =>
      let prompts := lines.foldl
        (fun acc l =>
          let line := trimSpace l
          if line ≠ "" ∧ ¬ startsWithStr line "#" then acc ++ [line] else acc)
        []
      match scanErr with
      | some e => Except.error ("error reading file: " ++ e)
      | none => Except.ok (createJobsFromPrompts prompts)

/-! ### Inversion lemmas for `step` -/

theorem step_cancel_inv {env : Env} {s t : RunState}
    (h : step env Action.cancel s = some t) :
    s.finalized = false ∧ t = { s with cancelled := true } := by
  unfold step at h
  split at h
  · cases h
  next hfin =>
    simp only [Option.some.injEq] at h
    exact ⟨by simpa using hfin, h.symm⟩

theorem step_dispatch_inv {env : Env} {s t : RunState}
    (h : step env Action.dispatch s = some t) :
    ∃ j rest, s.finalized = false ∧ s.pending = j :: rest ∧
      s.intakeClosed = false ∧
      t = { s with pending := rest, intake := s.intake ++ [j] } := by
  simp only [step] at h
  split at h
  · cases h
  next hfin =>
    split at h
    next j rest heq1 heq2 =>
      simp only [Option.some.injEq] at h
      exact ⟨j, rest, by simpa using hfin, heq1, heq2, h.symm⟩
    next => cases h

theorem step_closeIntake_inv {env : Env} {s t : RunState}
    (h : step env Action.closeIntake s = some t) :
    s.finalized = false ∧ s.intakeClosed = false ∧
      (s.pending = [] ∨ s.cancelled = true) ∧
      t = { s with intakeClosed := true } := by
  simp only [step] at h
  split at h
  · cases h
  next hfin =>
    split at h
    · cases h
    next hcl =>
      split at h
      next hcond =>
        simp only [Option.some.injEq] at h
        exact ⟨by simpa using hfin, by simpa using hcl, hcond, h.symm⟩
      next => cases h

theorem step_workerStart_inv {env : Env} {s t : RunState} {w : Nat}
    (h : step env (Action.workerStart w) s = some t) :
    s.finalized = false ∧ s.workers[w]? = some WorkerPhase.init ∧
      ((∃ e, env.clientErr (w + 1) = some e ∧
          t = { s with workers := s.workers.set w WorkerPhase.drain }) ∨
       (env.clientErr (w + 1) = none ∧
          t = { s with workers := s.workers.set w WorkerPhase.run })) := by
  simp only [step] at h
  split at h
  · cases h
  next hfin =>
    split at h
    next heq =>
      split at h
      next e heqc =>
        simp only [Option.some.injEq] at h
        exact ⟨by simpa using hfin, heq, Or.inl ⟨e, heqc, h.symm⟩⟩
      next heqc =>
        simp only [Option.some.injEq] at h
        exact ⟨by simpa using hfin, heq, Or.inr ⟨heqc, h.symm⟩⟩
    next => cases h

theorem step_drainTake_inv {env : Env} {s t : RunState} {w : Nat}
    (h : step env (Action.drainTake w) s = some t) :
    ∃ j rest e, s.finalized = false ∧
      s.workers[w]? = some WorkerPhase.drain ∧
      s.intake = j :: rest ∧ env.clientErr (w + 1) = some e ∧
      t = { s with intake := rest, output := s.output ++ [drainResult j w e] } := by
  simp only [step] at h
  split at h
  · cases h
  next hfin =>
    split at h
    next j rest e heq1 heq2 heq3 =>
      simp only [Option.some.injEq] at h
      exact ⟨j, rest, e, by simpa using hfin, heq1, heq2, heq3, h.symm⟩
    next => cases h

theorem step_drainExit_inv {env : Env} {s t : RunState} {w : Nat}
    (h : step env (Action.drainExit w) s = some t) :
    s.finalized = false ∧ s.workers[w]? = some WorkerPhase.drain ∧
      s.intake = [] ∧ s.intakeClosed = true ∧
      t = { s with workers := s.workers.set w WorkerPhase.done } := by
  simp only [step] at h
  split at h
  · cases h
  next hfin =>
    split at h
    next heq1 heq2 heq3 =>
      simp only [Option.some.injEq] at h
      exact ⟨by simpa using hfin, heq1, heq2, heq3, h.symm⟩
    next => cases h

theorem step_take_inv {env : Env} {s t : RunState} {w : Nat}
    (h : step env (Action.take w) s = some t) :
    ∃ j rest, s.finalized = false ∧
      s.workers[w]? = some WorkerPhase.run ∧ s.intake = j :: rest ∧
      t = { s with intake := rest,
                   workers := s.workers.set w
                     (WorkerPhase.emit (genResult env s.cancelled j w)) } := by
  simp only [step] at h
  split at h
  · cases h
  next hfin =>
    split at h
    next j rest heq1 heq2 =>
      simp only [Option.some.injEq] at h
      exact ⟨j, rest, by simpa using hfin, heq1, heq2, h.symm⟩
    next => cases h

theorem step_send_inv {env : Env} {s t : RunState} {w : Nat}
    (h : step env (Action.send w) s = some t) :
    ∃ r, s.finalized = false ∧
      s.workers[w]? = some (WorkerPhase.emit r) ∧
      t = { s with workers := s.workers.set w WorkerPhase.run,
                   output := s.output ++ [r] } := by
  simp only [step] at h
  split at h
  · cases h
  next hfin =>
    split at h
    next r heq =>
      simp only [Option.some.injEq] at h
      exact ⟨r, by simpa using hfin, heq, h.symm⟩
    next => cases h

theorem step_emitAbort_inv {env : Env} {s t : RunState} {w : Nat}
    (h : step env (Action.emitAbort w) s = some t) :
    ∃ r, s.finalized = false ∧
      s.workers[w]? = some (WorkerPhase.emit r) ∧ s.cancelled = true ∧
      t = { s with workers := s.workers.set w WorkerPhase.done } := by
  simp only [step] at h
  split at h
  · cases h
  next hfin =>
    split at h
    next r heq1 heq2 =>
      simp only [Option.some.injEq] at h
      exact ⟨r, by simpa using hfin, heq1, heq2, h.symm⟩
    next => cases h

theorem step_exitClosed_inv {env : Env} {s t : RunState} {w : Nat}
    (h : step env (Action.exitClosed w) s = some t) :
    s.finalized = false ∧ s.workers[w]? = some WorkerPhase.run ∧
      s.intake = [] ∧ s.intakeClosed = true ∧
      t = { s with workers := s.workers.set w WorkerPhase.done } := by
  simp only [step] at h
  split at h
  · cases h
  next hfin =>
    split at h
    next heq1 heq2 heq3 =>
      simp only [Option.some.injEq] at h
      exact ⟨by simpa using hfin, heq1, heq2, heq3, h.symm⟩
    next => cases h

theorem step_abort_inv {env : Env} {s t : RunState} {w : Nat}
    (h : step env (Action.abort w) s = some t) :
    s.finalized = false ∧ s.workers[w]? = some WorkerPhase.run ∧
      s.cancelled = true ∧
      t = { s with workers := s.workers.set w WorkerPhase.done } := by
  simp only [step] at h
  split at h
  · cases h
  next hfin =>
    split at h
    next heq1 heq2 =>
      simp only [Option.some.injEq] at h
      exact ⟨by simpa using hfin, heq1, heq2, h.symm⟩
    next => cases h

theorem step_closeOutput_inv {env : Env} {s t : RunState}
    (h : step env Action.closeOutput s = some t) :
    s.finalized = false ∧ s.outputClosed = false ∧
      (∀ ph ∈ s.workers, ph = WorkerPhase.done) ∧
      t = { s with outputClosed := true } := by
  simp only [step] at h
  split at h
  · cases h
  next hfin =>
    split at h
    · cases h
    next hcl =>
      split at h
      next hall =>
        simp only [Option.some.injEq] at h
        exact ⟨by simpa using hfin, by simpa using hcl, hall, h.symm⟩
      next => cases h

theorem step_collect_inv {env : Env} {s t : RunState}
    (h : step env Action.collect s = some t) :
    ∃ r rest, s.finalized = false ∧ s.output = r :: rest ∧
      t = { s with output := rest, collected := s.collected ++ [r],
                   stats := foldResult s.stats r } := by
  simp only [step] at h
  split at h
  · cases h
  next hfin =>
    split at h
    next r rest heq =>
      simp only [Option.some.injEq] at h
      exact ⟨r, rest, by simpa using hfin, heq, h.symm⟩
    next => cases h

theorem step_finalize_inv {env : Env} {s t : RunState}
    (h : step env Action.finalize s = some t) :
    s.finalized = false ∧ s.outputClosed = true ∧ s.output = [] ∧
      t = { s with finalized := true,
                   stats := { s.stats with
                     endTime := env.endTime,
                     averageDuration :=
                       if s.stats.totalJobs > 0 then
                         s.stats.totalDuration / s.stats.totalJobs
                       else s.stats.averageDuration } } := by
  simp only [step] at h
  split at h
  · cases h
  next hfin =>
    split at h
    next hcond =>
      simp only [Option.some.injEq] at h
      exact ⟨by simpa using hfin, hcond.1, hcond.2, h.symm⟩
    next => cases h

/-! ### Job accounting

Every job of a run sits in exactly one place: not yet dispatched
(`pending`), in the intake channel (`intake`), inside a result held by
a worker (`emit`), inside a result in the output channel (`output`) or
inside a collected result (`collected`).  Conservation is stated for an
arbitrary `Nat`-valued weight on jobs; instantiating the weight with
the constant 1 gives cardinality, instantiating it with the indicator
of one job gives the per-job count. -/

def wsum (w : BatchJob → Nat) (l : List BatchJob) : Nat :=
  (l.map w).sum

def rsum (w : BatchJob → Nat) (rs : List BatchResult) : Nat :=
  (rs.map (fun r => w r.job)).sum

def phW (w : BatchJob → Nat) : WorkerPhase → Nat
  | WorkerPhase.emit r => w r.job
  | _ => 0

def emitW (w : BatchJob → Nat) (ws : List WorkerPhase) : Nat :=
  (ws.map (phW w)).sum

/-- Total weight of the jobs of a run state, over all five places. -/
def wsumS (w : BatchJob → Nat) (s : RunState) : Nat :=
  wsum w s.pending + wsum w s.intake + emitW w s.workers +
    rsum w s.output + rsum w s.collected

theorem wsum_cons (w : BatchJob → Nat) (j : BatchJob) (l : List BatchJob) :
    wsum w (j :: l) = w j + wsum w l := by
  simp [wsum]

theorem wsum_append (w : BatchJob → Nat) (l₁ l₂ : List BatchJob) :
    wsum w (l₁ ++ l₂) = wsum w l₁ + wsum w l₂ := by
  simp [wsum]

theorem rsum_cons (w : BatchJob → Nat) (r : BatchResult) (rs : List BatchResult) :
    rsum w (r :: rs) = w r.job + rsum w rs := by
  simp [rsum]

theorem rsum_append (w : BatchJob → Nat) (rs₁ rs₂ : List BatchResult) :
    rsum w (rs₁ ++ rs₂) = rsum w rs₁ + rsum w rs₂ := by
  simp [rsum]

theorem emitW_set (w : BatchJob → Nat) :
    ∀ (ws : List WorkerPhase) (i : Nat) (ph ph' : WorkerPhase),
      ws[i]? = some ph →
      emitW w (ws.set i ph') + phW w ph = emitW w ws + phW w ph'
  | [], i, ph, ph', h => by simp at h
  | p :: rest, 0, ph, ph', h => by
      simp only [List.getElem?_cons_zero, Option.some.injEq] at h
      subst h
      simp [emitW]
      omega
  | p :: rest, i + 1, ph, ph', h => by
      simp only [List.getElem?_cons_succ] at h
      have ih := emitW_set w rest i ph ph' h
      simp [emitW, List.set] at ih ⊢
      omega

theorem emitW_allDone (w : BatchJob → Nat) :
    ∀ ws : List WorkerPhase, (∀ ph ∈ ws, ph = WorkerPhase.done) →
      emitW w ws = 0
  | [], _ => rfl
  | p :: rest, h => by
      have hp := h p (List.mem_cons_self p rest)
      subst hp
      have := emitW_allDone w rest (fun ph hm => h ph (List.mem_cons_of_mem _ hm))
      simp [emitW, phW] at this ⊢
      exact this

/-- Weight of the constant-1 function is length. -/
theorem wsum_one (l : List BatchJob) : wsum (fun _ => 1) l = l.length := by
  simp [wsum]

theorem rsum_one (rs : List BatchResult) : rsum (fun _ => 1) rs = rs.length := by
  simp [rsum]

/-- Weight of the indicator function is the count. -/
theorem wsum_indicator (j : BatchJob) :
    ∀ l : List BatchJob,
      wsum (fun j' => if j' = j then 1 else 0) l = l.count j
  | [] => rfl
  | j' :: rest => by
      rw [wsum_cons, wsum_indicator j rest, List.count_cons]
      by_cases hj : j' = j
      · subst hj
        simp only [if_pos rfl, beq_self_eq_true, if_true]
        omega
      · rw [if_neg hj, beq_eq_false_iff_ne.mpr hj]
        simp

theorem rsum_indicator (j : BatchJob) :
    ∀ rs : List BatchResult,
      rsum (fun j' => if j' = j then 1 else 0) rs =
        (rs.map BatchResult.job).count j
  | [] => rfl
  | r :: rest => by
      rw [rsum_cons, rsum_indicator j rest, List.map_cons, List.count_cons]
      by_cases hj : r.job = j
      · rw [if_pos hj, hj, beq_self_eq_true]
        simp only [if_true]
        omega
      · rw [if_neg hj, beq_eq_false_iff_ne.mpr hj]
        simp

theorem wsum_singleton (wt : BatchJob → Nat) (j : BatchJob) :
    wsum wt [j] = wt j := by
  simp [wsum]

theorem rsum_singleton (wt : BatchJob → Nat) (r : BatchResult) :
    rsum wt [r] = wt r.job := by
  simp [rsum]

/-! ### The run invariant -/

/-- What the per-worker client-creation outcome forces on a worker
phase: a worker in the job loop has a working client, a worker holding
a result built it under its own 1-based id, a draining worker has a
failed client. -/
def phaseClientOK (env : Env) (wid : Nat) : WorkerPhase → Prop
  | WorkerPhase.run => env.clientErr wid = none
  | WorkerPhase.emit r => env.clientErr wid = none ∧ r.worker = wid
  | WorkerPhase.drain => env.clientErr wid ≠ none
  | _ => True

/-- A result honours the client-creation outcome of the worker that
produced it: if that worker's client creation failed, the result is
the substitute failure result. -/
def resultClientOK (env : Env) (r : BatchResult) : Prop :=
  ∀ e, env.clientErr r.worker = some e →
    r.error = some (clientErrMsg e) ∧ r.response = "" ∧ r.duration = 0

/-- The inductive invariant of a run of `ProcessJobs`, relative to the
environment and the worker count `W` of the processor. -/
structure Inv (env : Env) (W : Nat) (s : RunState) : Prop where
  workersLen : s.workers.length = W
  intakePending : s.cancelled = false → s.intakeClosed = true → s.pending = []
  doneClosed : s.cancelled = false → WorkerPhase.done ∈ s.workers →
      s.intakeClosed = true ∧ s.intake = []
  outputAll : s.outputClosed = true → ∀ ph ∈ s.workers, ph = WorkerPhase.done
  finShape : s.finalized = true → s.outputClosed = true ∧ s.output = []
  flowLe : ∀ wt, wsumS wt s ≤ wsum wt env.jobs
  flowEq : s.cancelled = false → ∀ wt, wsumS wt s = wsum wt env.jobs
  account : s.stats.completedJobs + s.stats.failedJobs = s.collected.length
  durSum : s.stats.totalDuration = (s.collected.map BatchResult.duration).sum
  totJobs : s.stats.totalJobs = env.jobs.length
  avgMid : s.finalized = false → s.stats.averageDuration = 0
  avgFin : s.finalized = true → s.stats.averageDuration =
      (if s.stats.totalJobs > 0 then
        s.stats.totalDuration / s.stats.totalJobs else 0)
  clientOut : ∀ r ∈ s.output, resultClientOK env r
  clientCol : ∀ r ∈ s.collected, resultClientOK env r
  phases : ∀ i ph, s.workers[i]? = some ph → phaseClientOK env (i + 1) ph

/-- The initial state satisfies the invariant. -/
theorem initState_inv (bp : BatchProcessor) (env : Env) :
    Inv env bp.workerCount (initState bp env) where
  workersLen := List.length_replicate bp.workerCount WorkerPhase.init
  intakePending := fun _ h => Bool.noConfusion h
  doneClosed := fun _ hd => by
    have := List.eq_of_mem_replicate hd
    cases this
  outputAll := fun h => by cases h
  finShape := fun h => by cases h
  flowLe := fun wt => by simp [wsumS, initState, wsum, rsum, emitW, phW]
  flowEq := fun _ wt => by simp [wsumS, initState, wsum, rsum, emitW, phW]
  account := rfl
  durSum := rfl
  totJobs := rfl
  avgMid := fun _ => rfl
  avgFin := fun h => by cases h
  clientOut := fun r hr => by cases hr
  clientCol := fun r hr => by cases hr
  phases := fun i ph hget => by
    have hmem := List.getElem?_mem hget
    have := List.eq_of_mem_replicate hmem
    subst this
    trivial

/-- Updating one worker phase preserves the per-worker client
condition if the new phase satisfies it. -/
theorem phases_update {env : Env} {ws : List WorkerPhase} {w : Nat}
    {oldPh newPh : WorkerPhase} (hw : ws[w]? = some oldPh)
    (hph : ∀ i ph, ws[i]? = some ph → phaseClientOK env (i + 1) ph)
    (hnew : phaseClientOK env (w + 1) newPh) :
    ∀ i ph, (ws.set w newPh)[i]? = some ph → phaseClientOK env (i + 1) ph := by
  intro i ph hget
  by_cases hiw : w = i
  · subst hiw
    have hlt : w < ws.length := (List.getElem?_eq_some.mp hw).1
    rw [List.getElem?_set_eq_of_lt newPh hlt] at hget
    cases hget
    exact hnew
  · rw [List.getElem?_set_ne hiw] at hget
    exact hph i ph hget

/-- A `done` phase in a list updated with a non-`done` phase was
already present before the update. -/
theorem done_mem_of_set {ws : List WorkerPhase} {w : Nat} {newPh : WorkerPhase}
    (hmem : WorkerPhase.done ∈ ws.set w newPh)
    (hne : newPh ≠ WorkerPhase.done) :
    WorkerPhase.done ∈ ws := by
  rcases List.mem_or_eq_of_mem_set hmem with h | h
  · exact h
  · exact absurd h.symm hne

/-- Preservation: every enabled step keeps the invariant. -/
theorem step_inv {env : Env} {W : Nat} {a : Action} {s t : RunState}
    (hs : Inv env W s) (h : step env a s = some t) : Inv env W t := by
  cases a with
  | cancel =>
    obtain ⟨hfin, ht⟩ := step_cancel_inv h
    subst ht
    exact {
      workersLen := hs.workersLen
      intakePending := fun hc => Bool.noConfusion hc
      doneClosed := fun hc => Bool.noConfusion hc
      outputAll := hs.outputAll
      finShape := fun hf => Bool.noConfusion (hfin.symm.trans hf)
      flowLe := hs.flowLe
      flowEq := fun hc => Bool.noConfusion hc
      account := hs.account
      durSum := hs.durSum
      totJobs := hs.totJobs
      avgMid := fun _ => hs.avgMid hfin
      avgFin := fun hf => Bool.noConfusion (hfin.symm.trans hf)
      clientOut := hs.clientOut
      clientCol := hs.clientCol
      phases := hs.phases }
  | dispatch =>
    obtain ⟨j, rest, hfin, hpend, hcl, ht⟩ := step_dispatch_inv h
    subst ht
    exact {
      workersLen := hs.workersLen
      intakePending := fun _ hic => Bool.noConfusion (hcl.symm.trans hic)
      doneClosed := fun hc hd => by
        obtain ⟨h1, _⟩ := hs.doneClosed hc hd
        exact Bool.noConfusion (hcl.symm.trans h1)
      outputAll := hs.outputAll
      finShape := fun hf => Bool.noConfusion (hfin.symm.trans hf)
      flowLe := fun wt => by
        have hle := hs.flowLe wt
        simp only [wsumS] at hle ⊢
        rw [hpend, wsum_cons] at hle
        rw [wsum_append, wsum_singleton]
        omega
      flowEq := fun hc wt => by
        have heq := hs.flowEq hc wt
        simp only [wsumS] at heq ⊢
        rw [hpend, wsum_cons] at heq
        rw [wsum_append, wsum_singleton]
        omega
      account := hs.account
      durSum := hs.durSum
      totJobs := hs.totJobs
      avgMid := fun _ => hs.avgMid hfin
      avgFin := fun hf => Bool.noConfusion (hfin.symm.trans hf)
      clientOut := hs.clientOut
      clientCol := hs.clientCol
      phases := hs.phases }
  | closeIntake =>
    obtain ⟨hfin, hcl, hcond, ht⟩ := step_closeIntake_inv h
    subst ht
    exact {
      workersLen := hs.workersLen
      intakePending := fun hc _ => by
        rcases hcond with hp | hcanc
        · exact hp
        · exact Bool.noConfusion (hcanc.symm.trans hc)
      doneClosed := fun hc hd => by
        obtain ⟨h1, _⟩ := hs.doneClosed hc hd
        exact Bool.noConfusion (hcl.symm.trans h1)
      outputAll := hs.outputAll
      finShape := fun hf => Bool.noConfusion (hfin.symm.trans hf)
      flowLe := hs.flowLe
      flowEq := hs.flowEq
      account := hs.account
      durSum := hs.durSum
      totJobs := hs.totJobs
      avgMid := fun _ => hs.avgMid hfin
      avgFin := fun hf => Bool.noConfusion (hfin.symm.trans hf)
      clientOut := hs.clientOut
      clientCol := hs.clientCol
      phases := hs.phases }
  | workerStart w =>
    obtain ⟨hfin, hw, hbranch⟩ := step_workerStart_inv h
    rcases hbranch with ⟨e, heqc, ht⟩ | ⟨heqc, ht⟩
    · subst ht
      exact {
        workersLen := by rw [List.length_set]; exact hs.workersLen
        intakePending := hs.intakePending
        doneClosed := fun hc hd =>
          hs.doneClosed hc (done_mem_of_set hd (fun hh => WorkerPhase.noConfusion hh))
        outputAll := fun hoc =>
          absurd (hs.outputAll hoc WorkerPhase.init (List.getElem?_mem hw))
            (fun hh => WorkerPhase.noConfusion hh)
        finShape := fun hf => Bool.noConfusion (hfin.symm.trans hf)
        flowLe := fun wt => by
          have hle := hs.flowLe wt
          have hset := emitW_set wt s.workers w WorkerPhase.init WorkerPhase.drain hw
          simp only [wsumS] at hle ⊢
          simp only [phW] at hset
          omega
        flowEq := fun hc wt => by
          have heq := hs.flowEq hc wt
          have hset := emitW_set wt s.workers w WorkerPhase.init WorkerPhase.drain hw
          simp only [wsumS] at heq ⊢
          simp only [phW] at hset
          omega
        account := hs.account
        durSum := hs.durSum
        totJobs := hs.totJobs
        avgMid := fun _ => hs.avgMid hfin
        avgFin := fun hf => Bool.noConfusion (hfin.symm.trans hf)
        clientOut := hs.clientOut
        clientCol := hs.clientCol
        phases := phases_update hw hs.phases
          (show env.clientErr (w + 1) ≠ none from
            fun hnone => Option.noConfusion (heqc.symm.trans hnone)) }
    · subst ht
      exact {
        workersLen := by rw [List.length_set]; exact hs.workersLen
        intakePending := hs.intakePending
        doneClosed := fun hc hd =>
          hs.doneClosed hc (done_mem_of_set hd (fun hh => WorkerPhase.noConfusion hh))
        outputAll := fun hoc =>
          absurd (hs.outputAll hoc WorkerPhase.init (List.getElem?_mem hw))
            (fun hh => WorkerPhase.noConfusion hh)
        finShape := fun hf => Bool.noConfusion (hfin.symm.trans hf)
        flowLe := fun wt => by
          have hle := hs.flowLe wt
          have hset := emitW_set wt s.workers w WorkerPhase.init WorkerPhase.run hw
          simp only [wsumS] at hle ⊢
          simp only [phW] at hset
          omega
        flowEq := fun hc wt => by
          have heq := hs.flowEq hc wt
          have hset := emitW_set wt s.workers w WorkerPhase.init WorkerPhase.run hw
          simp only [wsumS] at heq ⊢
          simp only [phW] at hset
          omega
        account := hs.account
        durSum := hs.durSum
        totJobs := hs.totJobs
        avgMid := fun _ => hs.avgMid hfin
        avgFin := fun hf => Bool.noConfusion (hfin.symm.trans hf)
        clientOut := hs.clientOut
        clientCol := hs.clientCol
        phases := phases_update hw hs.phases
          (show env.clientErr (w + 1) = none from heqc) }
  | drainTake w =>
    obtain ⟨j, rest, e, hfin, hw, hintake, heqc, ht⟩ := step_drainTake_inv h
    subst ht
    exact {
      workersLen := hs.workersLen
      intakePending := hs.intakePending
      doneClosed := fun hc hd => by
        obtain ⟨_, h2⟩ := hs.doneClosed hc hd
        exact List.noConfusion (hintake.symm.trans h2)
      outputAll := hs.outputAll
      finShape := fun hf => Bool.noConfusion (hfin.symm.trans hf)
      flowLe := fun wt => by
        have hle := hs.flowLe wt
        simp only [wsumS] at hle ⊢
        rw [hintake, wsum_cons] at hle
        rw [rsum_append, rsum_singleton]
        simp only [drainResult]
        omega
      flowEq := fun hc wt => by
        have heq := hs.flowEq hc wt
        simp only [wsumS] at heq ⊢
        rw [hintake, wsum_cons] at heq
        rw [rsum_append, rsum_singleton]
        simp only [drainResult]
        omega
      account := hs.account
      durSum := hs.durSum
      totJobs := hs.totJobs
      avgMid := fun _ => hs.avgMid hfin
      avgFin := fun hf => Bool.noConfusion (hfin.symm.trans hf)
      clientOut := fun r' hr' => by
        rcases List.mem_append.mp hr' with hmem | hmem
        · exact hs.clientOut r' hmem
        · rw [List.mem_singleton] at hmem
          subst hmem
          intro e' he'
          have hee := heqc.symm.trans he'
          cases hee
          exact ⟨rfl, rfl, rfl⟩
      clientCol := hs.clientCol
      phases := hs.phases }
  | drainExit w =>
    obtain ⟨hfin, hw, hemp, hicl, ht⟩ := step_drainExit_inv h
    subst ht
    exact {
      workersLen := by rw [List.length_set]; exact hs.workersLen
      intakePending := hs.intakePending
      doneClosed := fun _ _ => ⟨hicl, hemp⟩
      outputAll := fun hoc =>
        absurd (hs.outputAll hoc WorkerPhase.drain (List.getElem?_mem hw))
          (fun hh => WorkerPhase.noConfusion hh)
      finShape := fun hf => Bool.noConfusion (hfin.symm.trans hf)
      flowLe := fun wt => by
        have hle := hs.flowLe wt
        have hset := emitW_set wt s.workers w WorkerPhase.drain WorkerPhase.done hw
        simp only [wsumS] at hle ⊢
        simp only [phW] at hset
        omega
      flowEq := fun hc wt => by
        have heq := hs.flowEq hc wt
        have hset := emitW_set wt s.workers w WorkerPhase.drain WorkerPhase.done hw
        simp only [wsumS] at heq ⊢
        simp only [phW] at hset
        omega
      account := hs.account
      durSum := hs.durSum
      totJobs := hs.totJobs
      avgMid := fun _ => hs.avgMid hfin
      avgFin := fun hf => Bool.noConfusion (hfin.symm.trans hf)
      clientOut := hs.clientOut
      clientCol := hs.clientCol
      phases := phases_update hw hs.phases trivial }
  | take w =>
    obtain ⟨j, rest, hfin, hw, hintake, ht⟩ := step_take_inv h
    subst ht
    exact {
      workersLen := by rw [List.length_set]; exact hs.workersLen
      intakePending := hs.intakePending
      doneClosed := fun hc hd => by
        have hd' := done_mem_of_set hd (fun hh => WorkerPhase.noConfusion hh)
        obtain ⟨_, h2⟩ := hs.doneClosed hc hd'
        exact List.noConfusion (hintake.symm.trans h2)
      outputAll := fun hoc =>
        absurd (hs.outputAll hoc WorkerPhase.run (List.getElem?_mem hw))
          (fun hh => WorkerPhase.noConfusion hh)
      finShape := fun hf => Bool.noConfusion (hfin.symm.trans hf)
      flowLe := fun wt => by
        have hle := hs.flowLe wt
        have hset := emitW_set wt s.workers w WorkerPhase.run
          (WorkerPhase.emit (genResult env s.cancelled j w)) hw
        simp only [wsumS] at hle ⊢
        simp only [phW] at hset
        simp only [genResult] at hset ⊢
        rw [hintake, wsum_cons] at hle
        omega
      flowEq := fun hc wt => by
        have heq := hs.flowEq hc wt
        have hset := emitW_set wt s.workers w WorkerPhase.run
          (WorkerPhase.emit (genResult env s.cancelled j w)) hw
        simp only [wsumS] at heq ⊢
        simp only [phW] at hset
        simp only [genResult] at hset ⊢
        rw [hintake, wsum_cons] at heq
        omega
      account := hs.account
      durSum := hs.durSum
      totJobs := hs.totJobs
      avgMid := fun _ => hs.avgMid hfin
      avgFin := fun hf => Bool.noConfusion (hfin.symm.trans hf)
      clientOut := hs.clientOut
      clientCol := hs.clientCol
      phases := phases_update hw hs.phases
        (show env.clientErr (w + 1) = none ∧
            (genResult env s.cancelled j w).worker = w + 1 from
          ⟨hs.phases w WorkerPhase.run hw, rfl⟩) }
  | send w =>
    obtain ⟨r, hfin, hw, ht⟩ := step_send_inv h
    subst ht
    exact {
      workersLen := by rw [List.length_set]; exact hs.workersLen
      intakePending := hs.intakePending
      doneClosed := fun hc hd =>
        hs.doneClosed hc (done_mem_of_set hd (fun hh => WorkerPhase.noConfusion hh))
      outputAll := fun hoc =>
        absurd (hs.outputAll hoc (WorkerPhase.emit r) (List.getElem?_mem hw))
          (fun hh => WorkerPhase.noConfusion hh)
      finShape := fun hf => Bool.noConfusion (hfin.symm.trans hf)
      flowLe := fun wt => by
        have hle := hs.flowLe wt
        have hset := emitW_set wt s.workers w (WorkerPhase.emit r) WorkerPhase.run hw
        simp only [wsumS] at hle ⊢
        simp only [phW] at hset
        rw [rsum_append, rsum_singleton]
        omega
      flowEq := fun hc wt => by
        have heq := hs.flowEq hc wt
        have hset := emitW_set wt s.workers w (WorkerPhase.emit r) WorkerPhase.run hw
        simp only [wsumS] at heq ⊢
        simp only [phW] at hset
        rw [rsum_append, rsum_singleton]
        omega
      account := hs.account
      durSum := hs.durSum
      totJobs := hs.totJobs
      avgMid := fun _ => hs.avgMid hfin
      avgFin := fun hf => Bool.noConfusion (hfin.symm.trans hf)
      clientOut := fun r' hr' => by
        rcases List.mem_append.mp hr' with hmem | hmem
        · exact hs.clientOut r' hmem
        · rw [List.mem_singleton] at hmem
          rw [hmem]
          have hph := hs.phases w (WorkerPhase.emit r) hw
          intro e' he'
          rw [hph.2, hph.1] at he'
          exact Option.noConfusion he'
      clientCol := hs.clientCol
      phases := phases_update hw hs.phases
        (show env.clientErr (w + 1) = none from (hs.phases w (WorkerPhase.emit r) hw).1) }
  | emitAbort w =>
    obtain ⟨r, hfin, hw, hcanc, ht⟩ := step_emitAbort_inv h
    subst ht
    exact {
      workersLen := by rw [List.length_set]; exact hs.workersLen
      intakePending := hs.intakePending
      doneClosed := fun hc => Bool.noConfusion (hcanc.symm.trans hc)
      outputAll := fun hoc =>
        absurd (hs.outputAll hoc (WorkerPhase.emit r) (List.getElem?_mem hw))
          (fun hh => WorkerPhase.noConfusion hh)
      finShape := fun hf => Bool.noConfusion (hfin.symm.trans hf)
      flowLe := fun wt => by
        have hle := hs.flowLe wt
        have hset := emitW_set wt s.workers w (WorkerPhase.emit r) WorkerPhase.done hw
        simp only [wsumS] at hle ⊢
        simp only [phW] at hset
        omega
      flowEq := fun hc => Bool.noConfusion (hcanc.symm.trans hc)
      account := hs.account
      durSum := hs.durSum
      totJobs := hs.totJobs
      avgMid := fun _ => hs.avgMid hfin
      avgFin := fun hf => Bool.noConfusion (hfin.symm.trans hf)
      clientOut := hs.clientOut
      clientCol := hs.clientCol
      phases := phases_update hw hs.phases trivial }
  | exitClosed w =>
    obtain ⟨hfin, hw, hemp, hicl, ht⟩ := step_exitClosed_inv h
    subst ht
    exact {
      workersLen := by rw [List.length_set]; exact hs.workersLen
      intakePending := hs.intakePending
      doneClosed := fun _ _ => ⟨hicl, hemp⟩
      outputAll := fun hoc =>
        absurd (hs.outputAll hoc WorkerPhase.run (List.getElem?_mem hw))
          (fun hh => WorkerPhase.noConfusion hh)
      finShape := fun hf => Bool.noConfusion (hfin.symm.trans hf)
      flowLe := fun wt => by
        have hle := hs.flowLe wt
        have hset := emitW_set wt s.workers w WorkerPhase.run WorkerPhase.done hw
        simp only [wsumS] at hle ⊢
        simp only [phW] at hset
        omega
      flowEq := fun hc wt => by
        have heq := hs.flowEq hc wt
        have hset := emitW_set wt s.workers w WorkerPhase.run WorkerPhase.done hw
        simp only [wsumS] at heq ⊢
        simp only [phW] at hset
        omega
      account := hs.account
      durSum := hs.durSum
      totJobs := hs.totJobs
      avgMid := fun _ => hs.avgMid hfin
      avgFin := fun hf => Bool.noConfusion (hfin.symm.trans hf)
      clientOut := hs.clientOut
      clientCol := hs.clientCol
      phases := phases_update hw hs.phases trivial }
  | abort w =>
    obtain ⟨hfin, hw, hcanc, ht⟩ := step_abort_inv h
    subst ht
    exact {
      workersLen := by rw [List.length_set]; exact hs.workersLen
      intakePending := hs.intakePending
      doneClosed := fun hc => Bool.noConfusion (hcanc.symm.trans hc)
      outputAll := fun hoc =>
        absurd (hs.outputAll hoc WorkerPhase.run (List.getElem?_mem hw))
          (fun hh => WorkerPhase.noConfusion hh)
      finShape := fun hf => Bool.noConfusion (hfin.symm.trans hf)
      flowLe := fun wt => by
        have hle := hs.flowLe wt
        have hset := emitW_set wt s.workers w WorkerPhase.run WorkerPhase.done hw
        simp only [wsumS] at hle ⊢
        simp only [phW] at hset
        omega
      flowEq := fun hc => Bool.noConfusion (hcanc.symm.trans hc)
      account := hs.account
      durSum := hs.durSum
      totJobs := hs.totJobs
      avgMid := fun _ => hs.avgMid hfin
      avgFin := fun hf => Bool.noConfusion (hfin.symm.trans hf)
      clientOut := hs.clientOut
      clientCol := hs.clientCol
      phases := phases_update hw hs.phases trivial }
  | closeOutput =>
    obtain ⟨hfin, hocl, hall, ht⟩ := step_closeOutput_inv h
    subst ht
    exact {
      workersLen := hs.workersLen
      intakePending := hs.intakePending
      doneClosed := hs.doneClosed
      outputAll := fun _ => hall
      finShape := fun hf => Bool.noConfusion (hfin.symm.trans hf)
      flowLe := hs.flowLe
      flowEq := hs.flowEq
      account := hs.account
      durSum := hs.durSum
      totJobs := hs.totJobs
      avgMid := fun _ => hs.avgMid hfin
      avgFin := fun hf => Bool.noConfusion (hfin.symm.trans hf)
      clientOut := hs.clientOut
      clientCol := hs.clientCol
      phases := hs.phases }
  | collect =>
    obtain ⟨r, rest, hfin, houtput, ht⟩ := step_collect_inv h
    subst ht
    exact {
      workersLen := hs.workersLen
      intakePending := hs.intakePending
      doneClosed := hs.doneClosed
      outputAll := hs.outputAll
      finShape := fun hf => Bool.noConfusion (hfin.symm.trans hf)
      flowLe := fun wt => by
        have hle := hs.flowLe wt
        simp only [wsumS] at hle ⊢
        rw [houtput, rsum_cons] at hle
        rw [rsum_append, rsum_singleton]
        omega
      flowEq := fun hc wt => by
        have heq := hs.flowEq hc wt
        simp only [wsumS] at heq ⊢
        rw [houtput, rsum_cons] at heq
        rw [rsum_append, rsum_singleton]
        omega
      account := by
        have ha := hs.account
        show (foldResult s.stats r).completedJobs + (foldResult s.stats r).failedJobs =
          (s.collected ++ [r]).length
        simp only [foldResult, List.length_append, List.length_cons, List.length_nil]
        by_cases hr : r.error = none
        · rw [if_pos hr, if_pos hr]
          omega
        · rw [if_neg hr, if_neg hr]
          omega
      durSum := by
        have hd := hs.durSum
        show (foldResult s.stats r).totalDuration =
          ((s.collected ++ [r]).map BatchResult.duration).sum
        simp only [foldResult, List.map_append, List.sum_append, List.map_cons,
          List.sum_cons, List.map_nil, List.sum_nil]
        omega
      totJobs := hs.totJobs
      avgMid := fun _ => hs.avgMid hfin
      avgFin := fun hf => Bool.noConfusion (hfin.symm.trans hf)
      clientOut := fun r' hr' =>
        hs.clientOut r' (by rw [houtput]; exact List.mem_cons_of_mem _ hr')
      clientCol := fun r' hr' => by
        rcases List.mem_append.mp hr' with hmem | hmem
        · exact hs.clientCol r' hmem
        · rw [List.mem_singleton] at hmem
          rw [hmem]
          exact hs.clientOut r (by rw [houtput]; exact List.mem_cons_self r rest)
      phases := hs.phases }
  | finalize =>
    obtain ⟨hfin, houc, hout, ht⟩ := step_finalize_inv h
    subst ht
    exact {
      workersLen := hs.workersLen
      intakePending := hs.intakePending
      doneClosed := hs.doneClosed
      outputAll := hs.outputAll
      finShape := fun _ => ⟨houc, hout⟩
      flowLe := hs.flowLe
      flowEq := hs.flowEq
      account := hs.account
      durSum := hs.durSum
      totJobs := hs.totJobs
      avgMid := fun hf => Bool.noConfusion hf
      avgFin := fun _ => by
        show (if s.stats.totalJobs > 0 then
              s.stats.totalDuration / s.stats.totalJobs
            else s.stats.averageDuration) =
          (if s.stats.totalJobs > 0 then
              s.stats.totalDuration / s.stats.totalJobs else 0)
        by_cases hP : s.stats.totalJobs > 0
        · rw [if_pos hP, if_pos hP]
        · rw [if_neg hP, if_neg hP]
          exact hs.avgMid hfin
      clientOut := hs.clientOut
      clientCol := hs.clientCol
      phases := hs.phases }

/-- The invariant holds in every state reachable by a schedule. -/
theorem run_inv {env : Env} {W : Nat} :
    ∀ (acts : List Action) (s t : RunState),
      Inv env W s → run env acts s = some t → Inv env W t
  | [], s, t, hs, h => by
      simp only [run, Option.some.injEq] at h
      exact h ▸ hs
  | a :: acts, s, t, hs, h => by
      simp only [run] at h
      split at h
      next s' hstep => exact run_inv acts s' t (step_inv hs hstep) h
      next => cases h

/-- In a finalized, non-cancelled state of a processor with at least
one worker, every job weight has moved entirely into the collected
results. -/
theorem final_collect_weight {env : Env} {W : Nat} {s : RunState}
    (hinv : Inv env W s) (hfin : s.finalized = true)
    (hnc : s.cancelled = false) (hW : 1 ≤ W) :
    ∀ wt, rsum wt s.collected = wsum wt env.jobs := by
  intro wt
  obtain ⟨hocl, hout⟩ := hinv.finShape hfin
  have hall := hinv.outputAll hocl
  have hdone : WorkerPhase.done ∈ s.workers := by
    cases hws : s.workers with
    | nil =>
        have hlen := hinv.workersLen
        rw [hws] at hlen
        simp at hlen
        omega
    | cons p rest =>
        have hp := hall p (by rw [hws]; exact List.mem_cons_self p rest)
        rw [← hp]
        exact List.mem_cons_self p rest
  obtain ⟨hicl, hint⟩ := hinv.doneClosed hnc hdone
  have hpend := hinv.intakePending hnc hicl
  have hflow := hinv.flowEq hnc wt
  have hemit := emitW_allDone wt s.workers hall
  simp only [wsumS] at hflow
  rw [hpend, hint, hout, hemit] at hflow
  simpa [wsum, rsum] using hflow

/-- In every invariant state the collected results never outweigh the
submitted jobs. -/
theorem collect_weight_le {env : Env} {W : Nat} {s : RunState}
    (hinv : Inv env W s) :
    ∀ wt, rsum wt s.collected ≤ wsum wt env.jobs := by
  intro wt
  have hle := hinv.flowLe wt
  simp only [wsumS] at hle
  omega

/-- Steps other than `cancel` do not change the cancellation flag. -/
theorem step_cancelled_other {env : Env} {a : Action} {s t : RunState}
    (h : step env a s = some t) (hne : a ≠ Action.cancel) :
    t.cancelled = s.cancelled := by
  cases a with
  | cancel => exact absurd rfl hne
  | dispatch =>
      obtain ⟨j, rest, _, _, _, ht⟩ := step_dispatch_inv h
      rw [ht]
  | closeIntake =>
      obtain ⟨_, _, _, ht⟩ := step_closeIntake_inv h
      rw [ht]
  | workerStart w =>
      obtain ⟨_, _, hb⟩ := step_workerStart_inv h
      rcases hb with ⟨e, _, ht⟩ | ⟨_, ht⟩ <;> rw [ht]
  | drainTake w =>
      obtain ⟨j, rest, e, _, _, _, _, ht⟩ := step_drainTake_inv h
      rw [ht]
  | drainExit w =>
      obtain ⟨_, _, _, _, ht⟩ := step_drainExit_inv h
      rw [ht]
  | take w =>
      obtain ⟨j, rest, _, _, _, ht⟩ := step_take_inv h
      rw [ht]
  | send w =>
      obtain ⟨r, _, _, ht⟩ := step_send_inv h
      rw [ht]
  | emitAbort w =>
      obtain ⟨r, _, _, _, ht⟩ := step_emitAbort_inv h
      rw [ht]
  | exitClosed w =>
      obtain ⟨_, _, _, _, ht⟩ := step_exitClosed_inv h
      rw [ht]
  | abort w =>
      obtain ⟨_, _, _, ht⟩ := step_abort_inv h
      rw [ht]
  | closeOutput =>
      obtain ⟨_, _, _, ht⟩ := step_closeOutput_inv h
      rw [ht]
  | collect =>
      obtain ⟨r, rest, _, _, ht⟩ := step_collect_inv h
      rw [ht]
  | finalize =>
      obtain ⟨_, _, _, ht⟩ := step_finalize_inv h
      rw [ht]

/-- A run started in a cancelled state stays cancelled. -/
theorem run_cancelled_mono {env : Env} :
    ∀ (acts : List Action) (s t : RunState),
      run env acts s = some t → s.cancelled = true → t.cancelled = true
  | [], s, t, h, hc => by
      simp only [run, Option.some.injEq] at h
      exact h ▸ hc
  | a :: acts, s, t, h, hc => by
      simp only [run] at h
      split at h
      next s' hstep =>
        by_cases ha : a = Action.cancel
        · subst ha
          obtain ⟨_, ht⟩ := step_cancel_inv hstep
          exact run_cancelled_mono acts s' t h (by rw [ht])
        · have heq := step_cancelled_other hstep ha
          exact run_cancelled_mono acts s' t h (heq.trans hc)
      next => cases h

/-- A schedule containing `cancel` ends cancelled. -/
theorem run_cancel_of_mem {env : Env} :
    ∀ (acts : List Action) (s t : RunState),
      run env acts s = some t → Action.cancel ∈ acts → t.cancelled = true
  | [], _, _, _, hm => absurd hm (List.not_mem_nil _)
  | a :: acts, s, t, h, hm => by
      simp only [run] at h
      split at h
      next s' hstep =>
        by_cases ha : a = Action.cancel
        · subst ha
          obtain ⟨_, ht⟩ := step_cancel_inv hstep
          exact run_cancelled_mono acts s' t h (by rw [ht])
        · rcases List.mem_cons.mp hm with h1 | h1
          · exact absurd h1.symm ha
          · exact run_cancel_of_mem acts s' t h h1
      next => cases h

/-- A schedule without `cancel` never cancels. -/
theorem run_not_cancelled {env : Env} :
    ∀ (acts : List Action) (s t : RunState),
      run env acts s = some t → s.cancelled = false →
      Action.cancel ∉ acts → t.cancelled = false
  | [], s, t, h, hc, _ => by
      simp only [run, Option.some.injEq] at h
      exact h ▸ hc
  | a :: acts, s, t, h, hc, hnm => by
      simp only [run] at h
      split at h
      next s' hstep =>
        have ha : a ≠ Action.cancel := fun hh => hnm (hh ▸ List.mem_cons_self a acts)
        have heq := step_cancelled_other hstep ha
        exact run_not_cancelled acts s' t h (heq.trans hc)
          (fun hm => hnm (List.mem_cons_of_mem a hm))
      next => cases h

/-- Unpacking a successful non-empty `ProcessJobs` call. -/
theorem ProcessJobs_some {bp : BatchProcessor} {env : Env} {acts : List Action}
    {results : List BatchResult} {err : Option String} {bp' : BatchProcessor}
    (hne : env.jobs ≠ [])
    (h : ProcessJobs bp env acts = some ((results, err), bp')) :
    ∃ s, run env acts (initState bp env) = some s ∧ s.finalized = true ∧
      results = s.collected ∧ err = runError s ∧
      bp' = { bp with stats := s.stats } := by
  unfold ProcessJobs at h
  rw [if_neg hne] at h
  split at h
  next s hr =>
    split at h
    next hfin =>
      simp only [Option.some.injEq] at h
      injection h with h1 h3
      injection h1 with ha hb
      exact ⟨s, hr, by simpa using hfin, ha.symm, hb.symm, h3.symm⟩
    next => cases h
  next => cases h

/-- A nil run-level error means the context was never cancelled. -/
theorem runError_eq_none {s : RunState} (h : runError s = none) :
    s.cancelled = false := by
  unfold runError at h
  split at h
  next => cases h
  next hc => simpa using hc

/-- Any outcome of `ProcessJobs` keeps the worker count of the
processor unchanged. -/
theorem ProcessJobs_workerCount {bp : BatchProcessor} {env : Env}
    {acts : List Action} {out : List BatchResult × Option String}
    {bp' : BatchProcessor}
    (hrun : ProcessJobs bp env acts = some (out, bp')) :
    bp'.workerCount = bp.workerCount := by
  unfold ProcessJobs at hrun
  split at hrun
  next =>
    simp only [Option.some.injEq] at hrun
    injection hrun with _ hb
    rw [← hb]
  next =>
    split at hrun
    next s hr =>
      split at hrun
      next hfin =>
        simp only [Option.some.injEq] at hrun
        injection hrun with _ hb
        rw [← hb]
      next => cases hrun
    next => cases hrun

/-- The early return of ProcessJobs on an empty job list
(main.go lines 100-102). -/
theorem ProcessJobs_nil {bp : BatchProcessor} {env : Env} {acts : List Action}
    (h : env.jobs = []) :
    ProcessJobs bp env acts = some (([], none), bp) := by
  unfold ProcessJobs
  rw [if_pos h]

/-! ### The claims -/

/-- Claim C1: for every run of ProcessJobs over a non-empty job list
whose run context is never cancelled (nil run-level error), the
returned collection contains exactly one Result per submitted Job:
its length equals the number of jobs and, position for position, the
multiset of jobs carried by the results equals the multiset of
submitted jobs (stated through counts), regardless of worker count,
generator outcomes and client-creation outcomes. -/
theorem C1_exactly_one_result_per_job
    (bp : BatchProcessor) (env : Env) (acts : List Action)
    (results : List BatchResult) (bp' : BatchProcessor)
    (hW : 1 ≤ bp.workerCount) (hne : env.jobs ≠ [])
    (hrun : ProcessJobs bp env acts = some ((results, none), bp')) :
    results.length = env.jobs.length ∧
      ∀ j : BatchJob, (results.map BatchResult.job).count j = env.jobs.count j := by
  obtain ⟨s, hr, hfin, hres, herr, _⟩ := ProcessJobs_some hne hrun
  have hinv := run_inv acts _ s (initState_inv bp env) hr
  have hnc : s.cancelled = false := runError_eq_none herr.symm
  subst hres
  constructor
  · have hcard := final_collect_weight hinv hfin hnc hW (fun _ => 1)
    rw [rsum_one, wsum_one] at hcard
    exact hcard
  · intro j
    have hcount := final_collect_weight hinv hfin hnc hW
      (fun j' => if j' = j then 1 else 0)
    rw [rsum_indicator, wsum_indicator] at hcount
    exact hcount

/-- Claim C2: in a completed non-cancelled run, a worker whose client
creation failed does not abort: it still produces Results (the global
one-Result-per-Job cardinality holds whatever the client-creation
outcomes are), and every Result carrying the id of such a worker is
the substitute failure Result, with the wrapped client-construction
error, empty response and zero duration. -/
theorem C2_setup_failure_drains
    (bp : BatchProcessor) (env : Env) (acts : List Action)
    (results : List BatchResult) (bp' : BatchProcessor)
    (hW : 1 ≤ bp.workerCount) (hne : env.jobs ≠ [])
    (hrun : ProcessJobs bp env acts = some ((results, none), bp')) :
    (results.length = env.jobs.length ∧
      ∀ j : BatchJob, (results.map BatchResult.job).count j = env.jobs.count j) ∧
    ∀ r ∈ results, ∀ e, env.clientErr r.worker = some e →
      r.error = some (clientErrMsg e) ∧ r.response = "" ∧ r.duration = 0 := by
  obtain ⟨s, hr, hfin, hres, herr, _⟩ := ProcessJobs_some hne hrun
  have hinv := run_inv acts _ s (initState_inv bp env) hr
  have hnc : s.cancelled = false := runError_eq_none herr.symm
  subst hres
  refine ⟨⟨?_, fun j => ?_⟩, fun r hmem e he => hinv.clientCol r hmem e he⟩
  · have hcard := final_collect_weight hinv hfin hnc hW (fun _ => 1)
    rw [rsum_one, wsum_one] at hcard
    exact hcard
  · have hcount := final_collect_weight hinv hfin hnc hW
      (fun j' => if j' = j then 1 else 0)
    rw [rsum_indicator, wsum_indicator] at hcount
    exact hcount

/-- Claim C3: in every reachable state of a run, the two counters
folded by the collector account exactly for the results received so
far, one counter incremented per result according to the presence of
its error, durations accumulated; and at the end of a non-cancelled
run their sum equals the total job count. -/
theorem C3_statistics_accounting
    (bp : BatchProcessor) (env : Env) (acts : List Action) (s : RunState)
    (hrun : run env acts (initState bp env) = some s) :
    (s.stats.completedJobs + s.stats.failedJobs = s.collected.length ∧
     s.stats.totalDuration = (s.collected.map BatchResult.duration).sum) ∧
    (∀ st r, (foldResult st r).completedJobs + (foldResult st r).failedJobs =
        st.completedJobs + st.failedJobs + 1 ∧
      ((foldResult st r).completedJobs = st.completedJobs + 1 ↔ r.error = none) ∧
      (foldResult st r).totalDuration = st.totalDuration + r.duration) ∧
    (s.finalized = true → s.cancelled = false → 1 ≤ bp.workerCount →
      s.stats.completedJobs + s.stats.failedJobs = s.stats.totalJobs) := by
  have hinv := run_inv acts _ s (initState_inv bp env) hrun
  refine ⟨⟨hinv.account, hinv.durSum⟩, fun st r => ?_, fun hfin hnc hW => ?_⟩
  · simp only [foldResult]
    by_cases hr : r.error = none
    · simp only [if_pos hr]
      refine ⟨by omega, ?_, trivial⟩
      simp [hr]
    · simp only [if_neg hr]
      refine ⟨by omega, ?_, trivial⟩
      constructor
      · intro hh
        omega
      · intro hh
        exact absurd hh hr
  · have hcard := final_collect_weight hinv hfin hnc hW (fun _ => 1)
    rw [rsum_one, wsum_one] at hcard
    rw [hinv.account, hinv.totJobs, hcard]

/-- Claim C4: for a non-empty job list, the run-level error returned
by ProcessJobs is exactly the error of the run context: nil iff the
schedule contains no cancellation, the fixed context-cancellation
error otherwise, independently of generator or client-creation
failures; and the result collection never exceeds the job count. -/
theorem C4_run_level_error
    (bp : BatchProcessor) (env : Env) (acts : List Action)
    (results : List BatchResult) (err : Option String) (bp' : BatchProcessor)
    (hne : env.jobs ≠ [])
    (hrun : ProcessJobs bp env acts = some ((results, err), bp')) :
    results.length ≤ env.jobs.length ∧
      err = (if Action.cancel ∈ acts then some "context canceled" else none) := by
  obtain ⟨s, hr, hfin, hres, herr, _⟩ := ProcessJobs_some hne hrun
  have hinv := run_inv acts _ s (initState_inv bp env) hr
  constructor
  · subst hres
    have hle := collect_weight_le hinv (fun _ => 1)
    rw [rsum_one, wsum_one] at hle
    exact hle
  · subst herr
    unfold runError
    by_cases hmem : Action.cancel ∈ acts
    · have hc := run_cancel_of_mem acts _ s hr hmem
      simp [hc, hmem]
    · have hc := run_not_cancelled acts _ s hr rfl hmem
      simp [hc, hmem]

/-- Claim C5 (amended): the average duration stays zero while a run is
in progress; when the run finalizes with a positive total job count it
becomes the integer quotient of the total duration by the total job
count, and a zero total job count leaves it at zero (the division is
guarded). -/
theorem C5_average_duration
    (bp : BatchProcessor) (env : Env) (acts : List Action) (s : RunState)
    (hrun : run env acts (initState bp env) = some s) :
    (s.finalized = false → s.stats.averageDuration = 0) ∧
    (s.finalized = true → 0 < s.stats.totalJobs →
      s.stats.averageDuration = s.stats.totalDuration / s.stats.totalJobs) ∧
    (s.finalized = true → s.stats.totalJobs = 0 →
      s.stats.averageDuration = 0) := by
  have hinv := run_inv acts _ s (initState_inv bp env) hrun
  refine ⟨hinv.avgMid, fun hfin hpos => ?_, fun hfin hzero => ?_⟩
  · rw [hinv.avgFin hfin, if_pos hpos]
  · rw [hinv.avgFin hfin, if_neg (by omega)]

/-- Claim C7: for every schedule (in particular whatever the
cancellation state of the context), ProcessJobs on an empty job list
returns the empty result collection and a nil error immediately, with
the processor untouched, independently of any worker or dispatcher
action. -/
theorem C7_empty_run (bp : BatchProcessor) (env : Env) (acts : List Action)
    (h : env.jobs = []) :
    ProcessJobs bp env acts = some (([], none), bp) :=
  ProcessJobs_nil h

/-- Claim C9: the worker count of a processor built by
NewBatchProcessor is at least 1 (a non-positive request is replaced by
1, a positive request is kept), and neither ProcessJobs nor Close ever
changes it. -/
theorem C9_worker_count (wc : Int) :
    1 ≤ GetWorkerCount (NewBatchProcessor wc) ∧
    (wc ≤ 0 → GetWorkerCount (NewBatchProcessor wc) = 1) ∧
    (0 < wc → GetWorkerCount (NewBatchProcessor wc) = wc.toNat) ∧
    ∀ (env : Env) (acts : List Action) (out : List BatchResult × Option String)
      (bp' : BatchProcessor),
      ProcessJobs (NewBatchProcessor wc) env acts = some (out, bp') →
      GetWorkerCount bp' = GetWorkerCount (NewBatchProcessor wc) ∧
      GetWorkerCount (CloseProcessor bp').2 = GetWorkerCount (NewBatchProcessor wc) := by
  refine ⟨?_, fun hwc => ?_, fun hwc => ?_, fun env acts out bp' hrun => ?_⟩
  · show 1 ≤ (if wc ≤ 0 then (1 : Int) else wc).toNat
    by_cases hwc : wc ≤ 0
    · rw [if_pos hwc]
      omega
    · rw [if_neg hwc]
      omega
  · show (if wc ≤ 0 then (1 : Int) else wc).toNat = 1
    rw [if_pos hwc]
    omega
  · show (if wc ≤ 0 then (1 : Int) else wc).toNat = wc.toNat
    rw [if_neg (by omega)]
  · have hpk := ProcessJobs_workerCount hrun
    exact ⟨hpk, hpk⟩

/-- Claim C10: a run over an empty job list leaves the statistics of
the processor exactly as they were: a snapshot taken afterwards equals
the snapshot taken before. -/
theorem C10_empty_run_frame
    (bp : BatchProcessor) (env : Env) (acts : List Action)
    (out : List BatchResult × Option String) (bp' : BatchProcessor)
    (h : env.jobs = []) (hrun : ProcessJobs bp env acts = some (out, bp')) :
    GetStatistics bp' = GetStatistics bp := by
  rw [ProcessJobs_nil h] at hrun
  injection hrun with h1
  injection h1 with _ hb
  rw [← hb]

theorem createJobsFromPromptsAux_length :
    ∀ (prompts : List String) (k : Nat),
      (createJobsFromPromptsAux k prompts).length = prompts.length
  | [], _ => rfl
  | _ :: rest, k => by
      simp [createJobsFromPromptsAux, createJobsFromPromptsAux_length rest (k + 1)]

theorem createJobsFromPromptsAux_getElem? :
    ∀ (prompts : List String) (k i : Nat) (p : String),
      prompts[i]? = some p →
      (createJobsFromPromptsAux k prompts)[i]? =
        some { id := "job-" ++ toString (k + i + 1), prompt := p, metadata := [] }
  | [], _, i, _, h => by simp at h
  | q :: rest, k, 0, p, h => by
      simp only [List.getElem?_cons_zero, Option.some.injEq] at h
      subst h
      simp [createJobsFromPromptsAux]
  | q :: rest, k, i + 1, p, h => by
      simp only [List.getElem?_cons_succ] at h
      have ih := createJobsFromPromptsAux_getElem? rest (k + 1) i p h
      simp only [createJobsFromPromptsAux, List.getElem?_cons_succ]
      rw [ih]
      have harith : k + 1 + i + 1 = k + (i + 1) + 1 := by omega
      rw [harith]

/-- The accumulating loop of createJobsFromFile is filtering the
trimmed lines. -/
theorem promptsFold_eq :
    ∀ (lines : List String) (acc : List String),
      lines.foldl (fun acc l =>
        let line := trimSpace l
        if line ≠ "" ∧ ¬ startsWithStr line "#" then acc ++ [line] else acc) acc =
      acc ++ (lines.map trimSpace).filter
        (fun t => !(t == "") && !(startsWithStr t "#"))
  | [], acc => by simp
  | l :: rest, acc => by
      simp only [List.foldl_cons, List.map_cons, List.filter_cons]
      rw [promptsFold_eq rest]
      by_cases hc : trimSpace l ≠ "" ∧ ¬ startsWithStr (trimSpace l) "#"
      · rw [if_pos hc]
        have hb : (!(trimSpace l == "") && !(startsWithStr (trimSpace l) "#")) = true := by
          obtain ⟨h1, h2⟩ := hc
          simp [h1, h2]
        rw [hb]
        simp
      · rw [if_neg hc]
        have hb : (!(trimSpace l == "") && !(startsWithStr (trimSpace l) "#")) = false := by
          by_cases h1 : trimSpace l = ""
          · simp [h1]
          · have h2 : startsWithStr (trimSpace l) "#" = true := by
              by_contra h2
              exact hc ⟨h1, by simpa using h2⟩
            simp [h2]
        rw [hb]
        simp

/-- Claim C8: the job source is order- and content-preserving with
generated identifiers: createJobsFromPrompts yields one job per
prompt, the job at 0-based position i carrying id job-(i+1) and the
i-th prompt; createJobsFromFile drops the lines that are blank after
trimming and the lines starting with a hash, numbers the surviving
trimmed lines the same way, and every read failure (open failure or
scanner error) yields a single error with no jobs at all. -/
theorem C8_job_source :
    (∀ prompts : List String,
      (createJobsFromPrompts prompts).length = prompts.length ∧
      ∀ (i : Nat) (p : String), prompts[i]? = some p →
        (createJobsFromPrompts prompts)[i]? =
          some { id := "job-" ++ toString (i + 1), prompt := p, metadata := [] }) ∧
    (∀ e, createJobsFromFile (ReadOutcome.openFailed e) =
      Except.error ("failed to open file: " ++ e)) ∧
    (∀ lines e, createJobsFromFile (ReadOutcome.scanned lines (some e)) =
      Except.error ("error reading file: " ++ e)) ∧
    (∀ lines, createJobsFromFile (ReadOutcome.scanned lines none) =
      Except.ok (createJobsFromPrompts
        ((lines.map trimSpace).filter
          (fun t => !(t == "") && !(startsWithStr t "#"))))) := by
  refine ⟨fun prompts =>
      ⟨createJobsFromPromptsAux_length prompts 0, fun i p h => ?_⟩,
    fun e => rfl, fun lines e => rfl, fun lines => ?_⟩
  · have haux := createJobsFromPromptsAux_getElem? prompts 0 i p h
    simpa [createJobsFromPrompts] using haux
  · show Except.ok (createJobsFromPrompts (lines.foldl _ [])) = _
    rw [promptsFold_eq lines []]
    simp

/-! ### Failure isolation: a two-run simulation

Two runs of the same schedule under generators that agree on every
prompt except one designated prompt stay in lock-step: every state
component is identical except the contents of results whose job
carries the designated prompt. -/

/-- Results of the two runs correspond: same job, same worker, and
identical in full unless the job carries the designated prompt. -/
def resultMatch (p₀ : String) (r₁ r₂ : BatchResult) : Prop :=
  r₁.job = r₂.job ∧ r₁.worker = r₂.worker ∧ (r₁.job.prompt ≠ p₀ → r₁ = r₂)

theorem resultMatch_refl (p₀ : String) (r : BatchResult) : resultMatch p₀ r r :=
  ⟨rfl, rfl, fun _ => rfl⟩

/-- Worker phases of the two runs correspond. -/
def phaseMatch (p₀ : String) : WorkerPhase → WorkerPhase → Prop
  | WorkerPhase.emit r₁, WorkerPhase.emit r₂ => resultMatch p₀ r₁ r₂
  | WorkerPhase.emit _, _ => False
  | _, WorkerPhase.emit _ => False
  | ph₁, ph₂ => ph₁ = ph₂

theorem phaseMatch_done_right {p₀ : String} :
    ∀ {b : WorkerPhase}, phaseMatch p₀ WorkerPhase.done b →
      b = WorkerPhase.done
  | WorkerPhase.init, h => h.symm
  | WorkerPhase.run, h => h.symm
  | WorkerPhase.emit _, h => h.elim
  | WorkerPhase.drain, h => h.symm
  | WorkerPhase.done, _ => rfl

/-- The lock-step relation between the states of the two runs. -/
structure StateMatch (p₀ : String) (s₁ s₂ : RunState) : Prop where
  pending : s₁.pending = s₂.pending
  intake : s₁.intake = s₂.intake
  intakeClosed : s₁.intakeClosed = s₂.intakeClosed
  workers : List.Forall₂ (phaseMatch p₀) s₁.workers s₂.workers
  output : List.Forall₂ (resultMatch p₀) s₁.output s₂.output
  outputClosed : s₁.outputClosed = s₂.outputClosed
  collected : List.Forall₂ (resultMatch p₀) s₁.collected s₂.collected
  cancelled : s₁.cancelled = s₂.cancelled
  finalized : s₁.finalized = s₂.finalized

theorem forall₂_getElem? {α β : Type} {R : α → β → Prop} {l₁ : List α}
    {l₂ : List β} (h : List.Forall₂ R l₁ l₂) :
    ∀ {i : Nat} {a : α}, l₁[i]? = some a → ∃ b, l₂[i]? = some b ∧ R a b := by
  induction h with
  | nil => intro i a ha; simp at ha
  | cons hr hrest ih =>
      intro i a ha
      cases i with
      | zero =>
          simp only [List.getElem?_cons_zero, Option.some.injEq] at ha
          subst ha
          exact ⟨_, List.getElem?_cons_zero, hr⟩
      | succ n =>
          simp only [List.getElem?_cons_succ] at ha ⊢
          exact ih ha

theorem forall₂_set {α β : Type} {R : α → β → Prop} {l₁ : List α}
    {l₂ : List β} (h : List.Forall₂ R l₁ l₂) :
    ∀ (i : Nat) {a : α} {b : β}, R a b →
      List.Forall₂ R (l₁.set i a) (l₂.set i b) := by
  induction h with
  | nil => intro i a b _; simp
  | cons hr hrest ih =>
      intro i a b hab
      cases i with
      | zero => simpa using List.Forall₂.cons hab hrest
      | succ n => simpa using List.Forall₂.cons hr (ih n hab)

theorem forall₂_append_single {α β : Type} {R : α → β → Prop} {l₁ : List α}
    {l₂ : List β} (h : List.Forall₂ R l₁ l₂) {a : α} {b : β} (hab : R a b) :
    List.Forall₂ R (l₁ ++ [a]) (l₂ ++ [b]) := by
  induction h with
  | nil => simpa using List.Forall₂.cons hab List.Forall₂.nil
  | cons hr _ ih => simpa using List.Forall₂.cons hr ih

theorem forall₂_mem_right {α β : Type} {R : α → β → Prop} {l₁ : List α}
    {l₂ : List β} (h : List.Forall₂ R l₁ l₂) :
    ∀ {b : β}, b ∈ l₂ → ∃ a ∈ l₁, R a b := by
  induction h with
  | nil => intro b hb; cases hb
  | cons hr _ ih =>
      intro b hb
      rcases List.mem_cons.mp hb with hb | hb
      · exact ⟨_, List.mem_cons_self _ _, hb ▸ hr⟩
      · obtain ⟨a, ha, hab⟩ := ih hb
        exact ⟨a, List.mem_cons_of_mem _ ha, hab⟩

/-- One step of the two runs preserves the lock-step relation: the
control flow of the engine never inspects the contents of a result, so
the runs take the same branches, and only results of the designated
prompt can differ. -/
theorem step_match {env : Env}
    {gen₂ : Bool → String → String × Option String × Nat} {p₀ : String}
    (hagree : ∀ b p, p ≠ p₀ → env.gen b p = gen₂ b p)
    {a : Action} {s₁ s₂ t₁ t₂ : RunState}
    (hm : StateMatch p₀ s₁ s₂)
    (h₁ : step env a s₁ = some t₁)
    (h₂ : step { env with gen := gen₂ } a s₂ = some t₂) :
    StateMatch p₀ t₁ t₂ := by
  cases a with
  | cancel =>
      obtain ⟨_, ht₁⟩ := step_cancel_inv h₁
      obtain ⟨_, ht₂⟩ := step_cancel_inv h₂
      subst ht₁; subst ht₂
      exact ⟨hm.pending, hm.intake, hm.intakeClosed, hm.workers, hm.output,
             hm.outputClosed, hm.collected, rfl, hm.finalized⟩
  | dispatch =>
      obtain ⟨j₁, rest₁, _, hpend₁, _, ht₁⟩ := step_dispatch_inv h₁
      obtain ⟨j₂, rest₂, _, hpend₂, _, ht₂⟩ := step_dispatch_inv h₂
      subst ht₁; subst ht₂
      have hil : j₁ :: rest₁ = j₂ :: rest₂ :=
        hpend₁.symm.trans (hm.pending.trans hpend₂)
      injection hil with hj hrest
      subst hj; subst hrest
      exact ⟨rfl, by rw [hm.intake], hm.intakeClosed, hm.workers, hm.output,
             hm.outputClosed, hm.collected, hm.cancelled, hm.finalized⟩
  | closeIntake =>
      obtain ⟨_, _, _, ht₁⟩ := step_closeIntake_inv h₁
      obtain ⟨_, _, _, ht₂⟩ := step_closeIntake_inv h₂
      subst ht₁; subst ht₂
      exact ⟨hm.pending, hm.intake, rfl, hm.workers, hm.output,
             hm.outputClosed, hm.collected, hm.cancelled, hm.finalized⟩
  | workerStart w =>
      obtain ⟨_, hw₁, hb₁⟩ := step_workerStart_inv h₁
      obtain ⟨_, hw₂, hb₂⟩ := step_workerStart_inv h₂
      rcases hb₁ with ⟨e₁, he₁, ht₁⟩ | ⟨he₁, ht₁⟩
      · rcases hb₂ with ⟨e₂, he₂, ht₂⟩ | ⟨he₂, ht₂⟩
        · subst ht₁; subst ht₂
          exact ⟨hm.pending, hm.intake, hm.intakeClosed,
                 forall₂_set hm.workers w
                   (show phaseMatch p₀ WorkerPhase.drain WorkerPhase.drain from rfl),
                 hm.output, hm.outputClosed, hm.collected, hm.cancelled, hm.finalized⟩
        · exact Option.noConfusion (he₁.symm.trans he₂)
      · rcases hb₂ with ⟨e₂, he₂, ht₂⟩ | ⟨he₂, ht₂⟩
        · exact Option.noConfusion (he₂.symm.trans he₁)
        · subst ht₁; subst ht₂
          exact ⟨hm.pending, hm.intake, hm.intakeClosed,
                 forall₂_set hm.workers w
                   (show phaseMatch p₀ WorkerPhase.run WorkerPhase.run from rfl),
                 hm.output, hm.outputClosed, hm.collected, hm.cancelled, hm.finalized⟩
  | drainTake w =>
      obtain ⟨j₁, rest₁, e₁, _, hw₁, hint₁, hce₁, ht₁⟩ := step_drainTake_inv h₁
      obtain ⟨j₂, rest₂, e₂, _, hw₂, hint₂, hce₂, ht₂⟩ := step_drainTake_inv h₂
      subst ht₁; subst ht₂
      have hil : j₁ :: rest₁ = j₂ :: rest₂ :=
        hint₁.symm.trans (hm.intake.trans hint₂)
      injection hil with hj hrest
      subst hj; subst hrest
      have hee : e₁ = e₂ := by
        have hoe := hce₁.symm.trans hce₂
        injection hoe
      subst hee
      exact ⟨hm.pending, rfl, hm.intakeClosed, hm.workers,
             forall₂_append_single hm.output (resultMatch_refl p₀ _),
             hm.outputClosed, hm.collected, hm.cancelled, hm.finalized⟩
  | drainExit w =>
      obtain ⟨_, hw₁, _, _, ht₁⟩ := step_drainExit_inv h₁
      obtain ⟨_, hw₂, _, _, ht₂⟩ := step_drainExit_inv h₂
      subst ht₁; subst ht₂
      exact ⟨hm.pending, hm.intake, hm.intakeClosed,
             forall₂_set hm.workers w
               (show phaseMatch p₀ WorkerPhase.done WorkerPhase.done from rfl),
             hm.output, hm.outputClosed, hm.collected, hm.cancelled, hm.finalized⟩
  | take w =>
      obtain ⟨j₁, rest₁, _, hw₁, hint₁, ht₁⟩ := step_take_inv h₁
      obtain ⟨j₂, rest₂, _, hw₂, hint₂, ht₂⟩ := step_take_inv h₂
      subst ht₁; subst ht₂
      have hil : j₁ :: rest₁ = j₂ :: rest₂ :=
        hint₁.symm.trans (hm.intake.trans hint₂)
      injection hil with hj hrest
      subst hj; subst hrest
      refine ⟨hm.pending, rfl, hm.intakeClosed, forall₂_set hm.workers w ?_,
              hm.output, hm.outputClosed, hm.collected, hm.cancelled, hm.finalized⟩
      show resultMatch p₀ (genResult env s₁.cancelled j₁ w)
        (genResult { env with gen := gen₂ } s₂.cancelled j₁ w)
      refine ⟨rfl, rfl, fun hp => ?_⟩
      unfold genResult
      rw [hm.cancelled, hagree s₂.cancelled j₁.prompt hp]
  | send w =>
      obtain ⟨r₁, _, hw₁, ht₁⟩ := step_send_inv h₁
      obtain ⟨r₂, _, hw₂, ht₂⟩ := step_send_inv h₂
      subst ht₁; subst ht₂
      obtain ⟨b, hb, hrel⟩ := forall₂_getElem? hm.workers hw₁
      have hbe : b = WorkerPhase.emit r₂ := by
        have hob := hb.symm.trans hw₂
        injection hob
      subst hbe
      exact ⟨hm.pending, hm.intake, hm.intakeClosed,
             forall₂_set hm.workers w
               (show phaseMatch p₀ WorkerPhase.run WorkerPhase.run from rfl),
             forall₂_append_single hm.output hrel,
             hm.outputClosed, hm.collected, hm.cancelled, hm.finalized⟩
  | emitAbort w =>
      obtain ⟨r₁, _, hw₁, _, ht₁⟩ := step_emitAbort_inv h₁
      obtain ⟨r₂, _, hw₂, _, ht₂⟩ := step_emitAbort_inv h₂
      subst ht₁; subst ht₂
      exact ⟨hm.pending, hm.intake, hm.intakeClosed,
             forall₂_set hm.workers w
               (show phaseMatch p₀ WorkerPhase.done WorkerPhase.done from rfl),
             hm.output, hm.outputClosed, hm.collected, hm.cancelled, hm.finalized⟩
  | exitClosed w =>
      obtain ⟨_, hw₁, _, _, ht₁⟩ := step_exitClosed_inv h₁
      obtain ⟨_, hw₂, _, _, ht₂⟩ := step_exitClosed_inv h₂
      subst ht₁; subst ht₂
      exact ⟨hm.pending, hm.intake, hm.intakeClosed,
             forall₂_set hm.workers w
               (show phaseMatch p₀ WorkerPhase.done WorkerPhase.done from rfl),
             hm.output, hm.outputClosed, hm.collected, hm.cancelled, hm.finalized⟩
  | abort w =>
      obtain ⟨_, hw₁, _, ht₁⟩ := step_abort_inv h₁
      obtain ⟨_, hw₂, _, ht₂⟩ := step_abort_inv h₂
      subst ht₁; subst ht₂
      exact ⟨hm.pending, hm.intake, hm.intakeClosed,
             forall₂_set hm.workers w
               (show phaseMatch p₀ WorkerPhase.done WorkerPhase.done from rfl),
             hm.output, hm.outputClosed, hm.collected, hm.cancelled, hm.finalized⟩
  | closeOutput =>
      obtain ⟨_, _, _, ht₁⟩ := step_closeOutput_inv h₁
      obtain ⟨_, _, _, ht₂⟩ := step_closeOutput_inv h₂
      subst ht₁; subst ht₂
      exact ⟨hm.pending, hm.intake, hm.intakeClosed, hm.workers, hm.output,
             rfl, hm.collected, hm.cancelled, hm.finalized⟩
  | collect =>
      obtain ⟨r₁, rest₁, _, hout₁, ht₁⟩ := step_collect_inv h₁
      obtain ⟨r₂, rest₂, _, hout₂, ht₂⟩ := step_collect_inv h₂
      subst ht₁; subst ht₂
      have hrel : List.Forall₂ (resultMatch p₀) (r₁ :: rest₁) (r₂ :: rest₂) := by
        rw [← hout₁, ← hout₂]
        exact hm.output
      obtain ⟨hr, hrest⟩ := List.forall₂_cons.mp hrel
      exact ⟨hm.pending, hm.intake, hm.intakeClosed, hm.workers, hrest,
             hm.outputClosed, forall₂_append_single hm.collected hr,
             hm.cancelled, hm.finalized⟩
  | finalize =>
      obtain ⟨_, _, _, ht₁⟩ := step_finalize_inv h₁
      obtain ⟨_, _, _, ht₂⟩ := step_finalize_inv h₂
      subst ht₁; subst ht₂
      exact ⟨hm.pending, hm.intake, hm.intakeClosed, hm.workers, hm.output,
             hm.outputClosed, hm.collected, hm.cancelled, rfl⟩

/-- The lock-step relation is preserved along any schedule. -/
theorem run_match {env : Env}
    {gen₂ : Bool → String → String × Option String × Nat} {p₀ : String}
    (hagree : ∀ b p, p ≠ p₀ → env.gen b p = gen₂ b p) :
    ∀ (acts : List Action) (s₁ s₂ t₁ t₂ : RunState),
      StateMatch p₀ s₁ s₂ →
      run env acts s₁ = some t₁ →
      run { env with gen := gen₂ } acts s₂ = some t₂ →
      StateMatch p₀ t₁ t₂
  | [], s₁, s₂, t₁, t₂, hm, h₁, h₂ => by
      simp only [run, Option.some.injEq] at h₁ h₂
      subst h₁; subst h₂
      exact hm
  | a :: acts, s₁, s₂, t₁, t₂, hm, h₁, h₂ => by
      simp only [run] at h₁ h₂
      split at h₁
      next s₁' hstep₁ =>
        split at h₂
        next s₂' hstep₂ =>
          exact run_match hagree acts s₁' s₂' t₁ t₂
            (step_match hagree hm hstep₁ hstep₂) h₁ h₂
        next => cases h₂
      next => cases h₁

/-- The two runs start in lock-step. -/
theorem initState_match (bp : BatchProcessor) (env : Env)
    (gen₂ : Bool → String → String × Option String × Nat) (p₀ : String) :
    StateMatch p₀ (initState bp env) (initState bp { env with gen := gen₂ }) := by
  refine ⟨rfl, rfl, rfl, ?_, List.Forall₂.nil, rfl, List.Forall₂.nil, rfl, rfl⟩
  apply List.forall₂_same.mpr
  intro x hx
  have hxe := List.eq_of_mem_replicate hx
  subst hxe
  exact rfl

/-- Claim C6: failure isolation. Consider two runs of the same
schedule over the same jobs, workers and client-creation outcomes,
whose generators agree on every prompt except one designated prompt
(for example, one generator made to always fail on that prompt).  If
the first run completes without cancellation, then position for
position the two result collections carry the same jobs and worker
ids, every result whose job does not carry the designated prompt is
bitwise identical in the two runs, and the second run also reports a
nil run-level error: changing the generator outcome of one job does
not change the result of any other job. -/
theorem C6_failure_isolation
    (bp : BatchProcessor) (env : Env)
    (gen₂ : Bool → String → String × Option String × Nat) (p₀ : String)
    (acts : List Action) (res₁ res₂ : List BatchResult)
    (err₁ err₂ : Option String) (bp₁ bp₂ : BatchProcessor)
    (hagree : ∀ b p, p ≠ p₀ → env.gen b p = gen₂ b p)
    (h₁ : ProcessJobs bp env acts = some ((res₁, err₁), bp₁))
    (h₂ : ProcessJobs bp { env with gen := gen₂ } acts = some ((res₂, err₂), bp₂))
    (hnc : err₁ = none) :
    List.Forall₂ (resultMatch p₀) res₁ res₂ ∧ err₂ = none := by
  by_cases hne : env.jobs = []
  · rw [ProcessJobs_nil hne] at h₁
    rw [ProcessJobs_nil (show ({ env with gen := gen₂ } : Env).jobs = [] from hne)] at h₂
    injection h₁ with h₁'
    injection h₁' with hpair₁ _
    injection hpair₁ with hres₁ herr₁
    injection h₂ with h₂'
    injection h₂' with hpair₂ _
    injection hpair₂ with hres₂ herr₂
    rw [← hres₁, ← hres₂, ← herr₂]
    exact ⟨List.Forall₂.nil, rfl⟩
  · have hne' : ({ env with gen := gen₂ } : Env).jobs ≠ [] := hne
    obtain ⟨s₁, hr₁, hfin₁, hres₁, herr₁, _⟩ := ProcessJobs_some hne h₁
    obtain ⟨s₂, hr₂, hfin₂, hres₂, herr₂, _⟩ := ProcessJobs_some hne' h₂
    have hm := run_match hagree acts _ _ s₁ s₂ (initState_match bp env gen₂ p₀) hr₁ hr₂
    subst hres₁; subst hres₂
    have hcanc₁ : s₁.cancelled = false :=
      runError_eq_none (herr₁.symm.trans hnc)
    have hcanc₂ : s₂.cancelled = false := hm.cancelled ▸ hcanc₁
    refine ⟨hm.collected, ?_⟩
    rw [herr₂]
    unfold runError
    rw [hcanc₂]
    simp

/-! ### Concrete scenarios -/

def j1 : BatchJob := { id := "job-1", prompt := "a", metadata := [] }

def j2 : BatchJob := { id := "job-2", prompt := "b", metadata := [] }

/-- Two jobs, one worker, a generator that always succeeds in 10 time
units. -/
def envA : Env :=
  { jobs := [j1, j2]
    gen := fun _ p => (p ++ "!", none, 10)
    clientErr := fun _ => none
    startTime := 5
    endTime := 9 }

def bpA : BatchProcessor := NewBatchProcessor 1

/-- A complete happy-path schedule for one worker and two jobs. -/
def actsA : List Action :=
  [Action.workerStart 0, Action.dispatch, Action.dispatch, Action.closeIntake,
   Action.take 0, Action.send 0, Action.take 0, Action.send 0,
   Action.exitClosed 0, Action.closeOutput, Action.collect, Action.collect,
   Action.finalize]

def outA : (List BatchResult × Option String) × BatchProcessor :=
  (ProcessJobs bpA envA actsA).getD default

def resA : List BatchResult := outA.1.1

def bpA' : BatchProcessor := outA.2

/-- The final state of the happy-path run. -/
def sA : RunState := (run envA actsA (initState bpA envA)).getD default

/-- Two jobs, two workers, client creation failing in worker 1 only. -/
def envB : Env :=
  { jobs := [j1, j2]
    gen := fun _ p => (p ++ "!", none, 10)
    clientErr := fun w => if w = 1 then some "boom" else none
    startTime := 0
    endTime := 7 }

def bpB : BatchProcessor := NewBatchProcessor 2

def actsB : List Action :=
  [Action.workerStart 0, Action.workerStart 1, Action.dispatch, Action.dispatch,
   Action.closeIntake, Action.drainTake 0, Action.take 1, Action.send 1,
   Action.drainExit 0, Action.exitClosed 1, Action.closeOutput,
   Action.collect, Action.collect, Action.finalize]

def outB : (List BatchResult × Option String) × BatchProcessor :=
  (ProcessJobs bpB envB actsB).getD default

def resB : List BatchResult := outB.1.1

def bpB' : BatchProcessor := outB.2

/-- A schedule that cancels after one dispatch; the in-flight result
is dropped on the cancelled send. -/
def actsC : List Action :=
  [Action.workerStart 0, Action.dispatch, Action.cancel, Action.closeIntake,
   Action.take 0, Action.emitAbort 0, Action.closeOutput, Action.finalize]

def outC : (List BatchResult × Option String) × BatchProcessor :=
  (ProcessJobs bpA envA actsC).getD default

/-- A prefix of the happy-path schedule stopping right after the first
collected result: a mid-run state. -/
def actsD : List Action :=
  [Action.workerStart 0, Action.dispatch, Action.dispatch, Action.closeIntake,
   Action.take 0, Action.send 0, Action.collect]

def sD : RunState := (run envA actsD (initState bpA envA)).getD default

/-- A second generator that fails exactly on the prompt of the second
job. -/
def genB2 : Bool → String → String × Option String × Nat :=
  fun b p => if p = "b" then ("", some "generation failed", 3) else envA.gen b p

def outA2 : (List BatchResult × Option String) × BatchProcessor :=
  (ProcessJobs bpA { envA with gen := genB2 } actsA).getD default

def resA2 : List BatchResult := outA2.1.1

def errA2 : Option String := outA2.1.2

def bpA2 : BatchProcessor := outA2.2

/-- An environment with no jobs at all. -/
def envE : Env :=
  { jobs := []
    gen := fun _ p => (p, none, 0)
    clientErr := fun _ => none
    startTime := 0
    endTime := 0 }

/-- A processor still carrying the statistics of a previous run. -/
def bpPrev : BatchProcessor :=
  { workerCount := 2
    stats := { totalJobs := 7, completedJobs := 4, failedJobs := 3,
               totalDuration := 55, averageDuration := 7, workerCount := 2,
               startTime := 1, endTime := 2 } }

/-! ### Counterexample for claim C5 as stated -/

/-- Counterexample to claim C5 as stated: a reachable mid-run state
(one of two results already folded, total duration 10) in which the
queried average duration is 0, not the quotient of the accumulated
duration by the total job count (5) nor by the count of received
results (10): mid-run snapshots do not satisfy the claimed equation,
because the code computes the average only at finalization. -/
theorem C5_mid_run_counterexample :
    (run envA actsD (initState bpA envA)).isSome = true ∧
    sD.finalized = false ∧
    sD.stats.totalJobs = 2 ∧
    sD.stats.totalDuration = 10 ∧
    sD.collected.length = 1 ∧
    sD.stats.averageDuration = 0 ∧
    sD.stats.averageDuration ≠ sD.stats.totalDuration / sD.stats.totalJobs ∧
    sD.stats.averageDuration ≠ sD.stats.totalDuration / sD.collected.length := by
  decide

/-! ### Witnesses -/

/-- Witness for claim C1 on the two-job happy-path run. -/
theorem C1_witness :
    resA.length = envA.jobs.length ∧
      ∀ j : BatchJob, (resA.map BatchResult.job).count j = envA.jobs.count j :=
  C1_exactly_one_result_per_job bpA envA actsA resA bpA'
    (by decide) (by decide) (by decide)

/-- Witness for claim C2 on the run whose first worker has a failing
client factory. -/
theorem C2_witness :
    (resB.length = envB.jobs.length ∧
      ∀ j : BatchJob, (resB.map BatchResult.job).count j = envB.jobs.count j) ∧
    ∀ r ∈ resB, ∀ e, envB.clientErr r.worker = some e →
      r.error = some (clientErrMsg e) ∧ r.response = "" ∧ r.duration = 0 :=
  C2_setup_failure_drains bpB envB actsB resB bpB'
    (by decide) (by decide) (by decide)

/-- Witness for claim C3 on the final state of the happy-path run. -/
theorem C3_witness :
    (sA.stats.completedJobs + sA.stats.failedJobs = sA.collected.length ∧
     sA.stats.totalDuration = (sA.collected.map BatchResult.duration).sum) ∧
    (∀ st r, (foldResult st r).completedJobs + (foldResult st r).failedJobs =
        st.completedJobs + st.failedJobs + 1 ∧
      ((foldResult st r).completedJobs = st.completedJobs + 1 ↔ r.error = none) ∧
      (foldResult st r).totalDuration = st.totalDuration + r.duration) ∧
    (sA.finalized = true → sA.cancelled = false → 1 ≤ bpA.workerCount →
      sA.stats.completedJobs + sA.stats.failedJobs = sA.stats.totalJobs) :=
  C3_statistics_accounting bpA envA actsA sA (by decide)

/-- Witness for claim C4 on the cancelled schedule. -/
theorem C4_witness :
    outC.1.1.length ≤ envA.jobs.length ∧
      outC.1.2 = (if Action.cancel ∈ actsC then some "context canceled" else none) :=
  C4_run_level_error bpA envA actsC outC.1.1 outC.1.2 outC.2
    (by decide) (by decide)

/-- Witness for the amended claim C5 on the final state of the
happy-path run. -/
theorem C5_witness :
    (sA.finalized = false → sA.stats.averageDuration = 0) ∧
    (sA.finalized = true → 0 < sA.stats.totalJobs →
      sA.stats.averageDuration = sA.stats.totalDuration / sA.stats.totalJobs) ∧
    (sA.finalized = true → sA.stats.totalJobs = 0 →
      sA.stats.averageDuration = 0) :=
  C5_average_duration bpA envA actsA sA (by decide)

/-- Witness for claim C6: the same schedule run against the original
generator and against one failing on the second prompt produces
lock-step related results. -/
theorem C6_witness :
    List.Forall₂ (resultMatch "b") resA resA2 ∧ errA2 = none :=
  C6_failure_isolation bpA envA genB2 "b" actsA resA resA2 none errA2 bpA' bpA2
    (fun b p h => by unfold genB2; rw [if_neg h])
    (by decide) (by decide) rfl

/-- Witness for claim C7: an empty job list returns immediately even
under a schedule that only cancels. -/
theorem C7_witness :
    ProcessJobs bpA envE [Action.cancel] = some (([], none), bpA) :=
  C7_empty_run bpA envE [Action.cancel] (by decide)

/-- Witness for claim C8 on concrete prompts and file lines. -/
theorem C8_witness :
    (createJobsFromPrompts ["x", "y"]).length = 2 ∧
    (createJobsFromPrompts ["x", "y"])[1]? =
      some { id := "job-2", prompt := "y", metadata := [] } ∧
    createJobsFromFile (ReadOutcome.scanned ["  x  ", "", "# c", "z"] none) =
      Except.ok (createJobsFromPrompts ["x", "z"]) := by
  refine ⟨(C8_job_source.1 ["x", "y"]).1, ?_, ?_⟩
  · exact (C8_job_source.1 ["x", "y"]).2 1 "y" (by decide)
  · have h8 := C8_job_source.2.2.2 ["  x  ", "", "# c", "z"]
    have heq : ((["  x  ", "", "# c", "z"].map trimSpace).filter
        (fun t => !(t == "") && !(startsWithStr t "#"))) = ["x", "z"] := by decide
    rw [heq] at h8
    exact h8

/-- Witness for claim C9: a negative requested worker count is clamped
to one, and the happy-path run leaves the worker count unchanged. -/
theorem C9_witness :
    (1 ≤ GetWorkerCount (NewBatchProcessor (-3)) ∧
     GetWorkerCount (NewBatchProcessor (-3)) = 1) ∧
    GetWorkerCount bpA' = GetWorkerCount (NewBatchProcessor 1) := by
  refine ⟨⟨(C9_worker_count (-3)).1, (C9_worker_count (-3)).2.1 (by decide)⟩, ?_⟩
  exact ((C9_worker_count 1).2.2.2 envA actsA (resA, none) bpA' (by decide)).1

/-- Witness for claim C10: the empty run leaves the previous
statistics snapshot intact. -/
theorem C10_witness :
    GetStatistics ((ProcessJobs bpPrev envE actsA).getD default).2 =
      GetStatistics bpPrev :=
  C10_empty_run_frame bpPrev envE actsA
    ((ProcessJobs bpPrev envE actsA).getD default).1
    ((ProcessJobs bpPrev envE actsA).getD default).2
    (by decide) (by decide)

end Batch
